import Mathlib

/-!
Shallow embedding of the Dawarinv transfer/transaction subsystem.

The data model follows `src/types.ts`; the operations follow the in-memory
(optimistic) state updates of the handlers in `src/App.tsx`
(`handleTransfer`, `handleConfirmSourceTransfer`, `handleReceiveTransfer`,
`handleRejectTransfer`, `handleDailyLog`, `handleBulkLog`), the validation
code of the UI entry points (`TransferModal.handleSubmit`,
`UsageModal.handleSubmit`, `MammalEmployeeDashboard.handleSubmitAll`),
`InventoryDashboard.handleBulkAccept` (src/unnamed/part_001), and the
notification effect and `handleLogout` in `src/App.tsx`.

Persistence calls (supabase) are out of scope per the spec; the embedding
models the synchronous optimistic in-memory mutation, with fresh identifiers
and timestamps supplied as parameters in place of `generateId()`/`Date.now()`.
JavaScript numbers are modelled as `Int` (quantities can in principle go
negative, which is exactly what some claims are about).
-/

namespace Dawarinv

inductive UserRole where
  | admin
  | branch_manager
  | warehouse_manager
  | mammal_employee
deriving DecidableEq

inductive TransactionType where
  | transfer
  | usage
  | receive
deriving DecidableEq

inductive TransactionStatus where
  | pending_source
  | pending_target
  | completed
  | cancelled
  | rejected
deriving DecidableEq

structure User where
  id : String
  username : String
  name : String
  role : UserRole
  branchCode : Option String := none
deriving DecidableEq

structure InventoryItem where
  id : String
  nameEn : String
  nameAr : String
  category : String
  quantity : Int
  unit : String
  minThreshold : Int
  lastUpdated : String
deriving DecidableEq

structure Transaction where
  id : String
  transferGroupId : Option String := none
  date : String
  type : TransactionType
  status : TransactionStatus
  fromLocation : Option String := none
  toLocation : Option String := none
  itemNameEn : String
  itemNameAr : String
  quantity : Int
  unit : String
  performedBy : String
  notes : Option String := none
  rejectionReason : Option String := none
deriving DecidableEq

/-- The `Record<string, InventoryItem[]>` inventory map, as an association list. -/
abbrev Inventory := List (String × List InventoryItem)

/-- `inventory[loc] || []`. -/
def getLoc (inv : Inventory) (loc : String) : List InventoryItem :=
  match inv.find? (fun p => p.1 == loc) with
  | some p => p.2
  | none => []

/-- `{...prev, [loc]: items}`: replace the binding for `loc`, or add it. -/
def setLoc (inv : Inventory) (loc : String) (items : List InventoryItem) : Inventory :=
  if inv.any (fun p => p.1 == loc) then
    inv.map (fun p => if p.1 == loc then (loc, items) else p)
  else
    inv ++ [(loc, items)]

/-- The in-memory application state: the per-location inventory map and the
transaction log. -/
structure AppState where
  inventory : Inventory
  transactions : List Transaction
deriving DecidableEq

/-- Replace the first element satisfying `p` (the `findIndex` + index-assignment
pattern used by the optimistic update loops). -/
def updateFirst (p : α → Bool) (f : α → α) : List α → List α
  | [] => []
  | a :: rest => if p a then f a :: rest else a :: updateFirst p f rest

def itemIds (l : List InventoryItem) : List String := l.map (·.id)

/-- `sourceItem?.quantity || 0` (a zero quantity also yields 0, so this is
exactly the JS expression as long as quantities are integers). -/
def qtyAt (items : List InventoryItem) (x : String) : Int :=
  match items.find? (fun i => i.id == x) with
  | some i => i.quantity
  | none => 0

/-! ## Transfer initiation (`handleTransfer`, App.tsx lines 550-665) -/

structure TransferReq where
  itemId : String
  quantity : Int
deriving DecidableEq

/-- The authority check of `handleTransfer` (App.tsx lines 556-559). -/
def isManagerOfSource (user : User) (fromLocation : String) : Bool :=
  (user.role == .branch_manager && user.branchCode == some fromLocation) ||
  (user.role == .warehouse_manager &&
    (fromLocation == "warehouse" || fromLocation == "mammal")) ||
  (user.role == .admin)

/-- The optimistic update loop of `handleTransfer` (App.tsx lines 568-596):
for each requested item, look it up at the source; skip it silently when
missing; when the actor manages the source, deduct the quantity in place;
build one transaction per found item.  `ids k`, `ids (k+1)`, ... play the
role of successive `generateId()` calls. -/
def transferCore (mgr : Bool) (st : TransactionStatus)
    (fromL toL gid uname now : String) (ids : Nat → String) :
    Nat → List TransferReq → List InventoryItem →
    List InventoryItem × List Transaction
  | _, [], inv => (inv, [])
  | k, req :: rest, inv =>
    match inv.find? (fun i => i.id == req.itemId) with
    | none => transferCore mgr st fromL toL gid uname now ids k rest inv
    | some src =>
      let inv2 := if mgr then
          updateFirst (fun i => i.id == req.itemId)
            (fun i => { i with quantity := i.quantity - req.quantity }) inv
        else inv
      let tx : Transaction :=
        { id := ids k, transferGroupId := some gid, date := now,
          type := .transfer, status := st,
          fromLocation := some fromL, toLocation := some toL,
          itemNameEn := src.nameEn, itemNameAr := src.nameAr,
          quantity := req.quantity, unit := src.unit, performedBy := uname }
      let p := transferCore mgr st fromL toL gid uname now ids (k + 1) rest inv2
      (p.1, tx :: p.2)

/-- `sourceOverride || selectedLocation` (the empty string is falsy in JS). -/
def resolveFrom (sourceOverride selLoc : Option String) : Option String :=
  match sourceOverride with
  | some src => if src = "" then selLoc else some src
  | none => selLoc

/-- `handleTransfer` (App.tsx lines 550-665), in-memory effect.  Refuses only
when the resolved source is falsy or `'all'`; decides the initial status from
`isManagerOfSource`; deducts at the source only for a manager; prepends the
new transactions to the log. -/
def handleTransfer (user : User) (selLoc : Option String) (ids : Nat → String)
    (k : Nat) (gid now : String) (items : List TransferReq)
    (toLocation : String) (sourceOverride : Option String)
    (s : AppState) : AppState :=
  match resolveFrom sourceOverride selLoc with
  | none => s
  | some fromLocation =>
    if fromLocation = "" ∨ fromLocation = "all" then s
    else
      let mgr := isManagerOfSource user fromLocation
      let st : TransactionStatus := if mgr then .pending_target else .pending_source
      let p := transferCore mgr st fromLocation toLocation gid user.name now ids k
        items (getLoc s.inventory fromLocation)
      { inventory := if mgr then setLoc s.inventory fromLocation p.1 else s.inventory,
        transactions := p.2 ++ s.transactions }

/-- The validation loop of `TransferModal.handleSubmit`
(src/components/TransferModal.tsx lines 318-331): each listed quantity must be
positive and at most the current source quantity (`sourceItem?.quantity || 0`). -/
def validateItems (items : List InventoryItem) : List TransferReq → Bool
  | [] => true
  | req :: rest =>
    if req.quantity ≤ 0 then false
    else if qtyAt items req.itemId < req.quantity then false
    else validateItems items rest

/-- The transfer-initiation operation as invoked from the dashboard at a fixed
location `L`: `TransferModal.handleSubmit` (lines 313-343) validates the list
against the source inventory and only then calls `onTransfer` =
`handleTransfer` with `sourceOverride = L`.  `none` means the submission was
refused (no state change). -/
def submitTransfer (user : User) (L : String) (ids : Nat → String) (k : Nat)
    (gid now : String) (transferList : List TransferReq)
    (targetLocation : String) (s : AppState) : Option AppState :=
  if transferList = [] then none
  else if targetLocation = "" then none
  else if validateItems (getLoc s.inventory L) transferList then
    some (handleTransfer user (some L) ids k gid now transferList targetLocation
      (some L) s)
  else none

/-! ## Later workflow steps on a single transaction -/

/-- The bilingual name match used by `confirmOutbound` / `receiveTransfer` /
`rejectTransfer`: `i.nameEn === t.itemNameEn || i.nameAr === t.itemNameAr`. -/
def nameMatch (t : Transaction) (i : InventoryItem) : Bool :=
  i.nameEn == t.itemNameEn || i.nameAr == t.itemNameAr

/-- Mark the transaction with this id as having the given status
(`setTransactions(prev => prev.map(t => t.id === id ? {...t, status} : t))`). -/
def setStatus (txId : String) (st : TransactionStatus) (txs : List Transaction) :
    List Transaction :=
  txs.map (fun t => if t.id == txId then { t with status := st } else t)

/-- `handleConfirmSourceTransfer` (App.tsx lines 667-693): deduct
`transaction.quantity` from the bilingual-name match at `fromLocation` when
one exists (every item with the matched id is mapped), and set the status to
`pending_target` in either case. -/
def handleConfirmSourceTransfer (tx : Transaction) (s : AppState) : AppState :=
  let fromL := tx.fromLocation.getD ""
  let src := getLoc s.inventory fromL
  match src.find? (nameMatch tx) with
  | some sourceItem =>
    { inventory := setLoc s.inventory fromL
        (src.map (fun i =>
          if i.id == sourceItem.id then { i with quantity := i.quantity - tx.quantity }
          else i)),
      transactions := setStatus tx.id .pending_target s.transactions }
  | none =>
    { inventory := s.inventory,
      transactions := setStatus tx.id .pending_target s.transactions }

/-- `handleReceiveTransfer` (App.tsx lines 695-749): credit
`transaction.quantity` to the bilingual-name match at `toLocation`, or append
a fresh item with category `"Received"` and `minThreshold = 0`; set the status
to `completed`.  No precondition on the transaction's current status. -/
def handleReceiveTransfer (newId now : String) (tx : Transaction)
    (s : AppState) : AppState :=
  let targetL := tx.toLocation.getD ""
  let existing := getLoc s.inventory targetL
  match existing.find? (nameMatch tx) with
  | some destItem =>
    { inventory := setLoc s.inventory targetL
        (existing.map (fun i =>
          if i.id == destItem.id then { i with quantity := i.quantity + tx.quantity }
          else i)),
      transactions := setStatus tx.id .completed s.transactions }
  | none =>
    let newItem : InventoryItem :=
      { id := newId, nameEn := tx.itemNameEn, nameAr := tx.itemNameAr,
        category := "Received", quantity := tx.quantity, unit := tx.unit,
        minThreshold := 0, lastUpdated := now }
    { inventory := setLoc s.inventory targetL (existing ++ [newItem]),
      transactions := setStatus tx.id .completed s.transactions }

/-- `handleRejectTransfer` (App.tsx lines 751-810): when the transaction was
`pending_target` (already deducted), restock the bilingual-name match at the
source, or append a `"Returned"` item when no match exists; in every case set
the status to `rejected` and record the reason. -/
def handleRejectTransfer (newId now : String) (tx : Transaction)
    (reason : String) (s : AppState) : AppState :=
  let sourceL := tx.fromLocation.getD ""
  let wasDeducted := tx.status == .pending_target
  let src := getLoc s.inventory sourceL
  let inv2 :=
    if wasDeducted then
      match src.find? (nameMatch tx) with
      | some sourceItem =>
        setLoc s.inventory sourceL
          (src.map (fun i =>
            if i.id == sourceItem.id then { i with quantity := i.quantity + tx.quantity }
            else i))
      | none =>
        let restoredItem : InventoryItem :=
          { id := newId, nameEn := tx.itemNameEn, nameAr := tx.itemNameAr,
            category := "Returned", quantity := tx.quantity, unit := tx.unit,
            minThreshold := 0, lastUpdated := now }
        setLoc s.inventory sourceL (src ++ [restoredItem])
    else s.inventory
  { inventory := inv2,
    transactions := s.transactions.map (fun t =>
      if t.id == tx.id then { t with status := .rejected, rejectionReason := some reason }
      else t) }

/-! ## Bulk accept (`InventoryDashboard.handleBulkAccept`, src/unnamed/part_001
lines 197-202) -/

/-- The `incomingTransfers` prop for a non-global location (App.tsx lines
1000-1003) restricted to one `transferGroupId` — i.e. the group the
`groupedIncoming` memo (part_001 lines 169-177) associates to `gid`, in log
order.  Ungrouped transactions are keyed by `"UNGROUPED-" ++ date`. -/
def incomingGroup (s : AppState) (selLoc : Option String) (gid : String) :
    List Transaction :=
  (s.transactions.filter (fun t =>
    t.toLocation == selLoc && t.status == .pending_target)).filter
    (fun t => t.transferGroupId.getD ("UNGROUPED-" ++ t.date) == gid)

/-- `group[1].forEach(tx => onReceiveTransfer(tx))`, with fresh ids threaded
for the items `receiveTransfer` might create. -/
def receiveAll (ids : Nat → String) (now : String) :
    Nat → List Transaction → AppState → AppState
  | _, [], s => s
  | k, tx :: rest, s =>
    receiveAll ids now (k + 1) rest (handleReceiveTransfer (ids k) now tx s)

/-- `handleBulkAccept(groupId)`: apply `receiveTransfer` to every incoming
pending-target transaction of the group, in order. -/
def handleBulkAccept (selLoc : Option String) (ids : Nat → String) (k : Nat)
    (now gid : String) (s : AppState) : AppState :=
  receiveAll ids now k (incomingGroup s selLoc gid) s

/-! ## Daily log (`handleDailyLog`, App.tsx lines 812-862, and
`UsageModal.handleSubmit`, src/components/UsageModal.tsx lines 31-47) -/

/-- `handleDailyLog`: look the item up by id at the active location, apply the
signed quantity change to every item with that id, and prepend one `completed`
transaction with the usage/receive sentinels.  Nothing happens when the
location is unset/`'all'` or the item is missing. -/
def handleDailyLog (user : User) (selLoc : Option String) (newId now : String)
    (type : TransactionType) (itemId : String) (quantity : Int)
    (notes : String) (s : AppState) : AppState :=
  match selLoc with
  | none => s
  | some location =>
    if location = "" ∨ location = "all" then s
    else
      match (getLoc s.inventory location).find? (fun i => i.id == itemId) with
      | none => s
      | some item =>
        let newQty := if type == .usage then item.quantity - quantity
          else item.quantity + quantity
        let newTx : Transaction :=
          { id := newId, date := now, type := type, status := .completed,
            fromLocation := some (if type == .usage then location else "External Supplier"),
            toLocation := some (if type == .usage then "Consumed" else location),
            itemNameEn := item.nameEn, itemNameAr := item.nameAr,
            quantity := quantity, unit := item.unit, performedBy := user.name,
            notes := some notes }
        { inventory := setLoc s.inventory location
            ((getLoc s.inventory location).map (fun i =>
              if i.id == itemId then { i with quantity := newQty } else i)),
          transactions := newTx :: s.transactions }

/-- A usage recorded through `UsageModal.handleSubmit`: the modal refuses a
non-positive quantity or one exceeding the displayed item's quantity, and
otherwise calls `onRecordUsage` = `handleDailyLog 'usage'`.  `none` means the
submission was refused. -/
def recordUsage (user : User) (selLoc : Option String) (newId now : String)
    (item : InventoryItem) (quantity : Int) (notes : String)
    (s : AppState) : Option AppState :=
  if quantity ≤ 0 then none
  else if item.quantity < quantity then none
  else some (handleDailyLog user selLoc newId now .usage item.id quantity notes s)

/-! ## Bulk daily log (`handleBulkLog`, App.tsx lines 864-928, and
`MammalEmployeeDashboard.handleSubmitAll`, lines 76-129) -/

structure LogReq where
  type : TransactionType
  itemId : String
  quantity : Int
  notes : String
deriving DecidableEq

/-- The optimistic update loop of `handleBulkLog` (App.tsx lines 871-893):
apply each log to the first index matching the item id (skipping missing
items) and collect one `completed` transaction per applied log. -/
def applyBulkLogs (uname now : String) (location : String) (ids : Nat → String) :
    Nat → List LogReq → List InventoryItem →
    List InventoryItem × List Transaction
  | _, [], inv => (inv, [])
  | k, log :: rest, inv =>
    match inv.find? (fun i => i.id == log.itemId) with
    | none => applyBulkLogs uname now location ids k rest inv
    | some item =>
      let inv2 := updateFirst (fun i => i.id == log.itemId)
        (fun i => { i with quantity :=
          if log.type == .usage then i.quantity - log.quantity
          else i.quantity + log.quantity }) inv
      let tx : Transaction :=
        { id := ids k, date := now, type := log.type, status := .completed,
          fromLocation := some (if log.type == .usage then location else "External Supplier"),
          toLocation := some (if log.type == .usage then "Consumed" else location),
          itemNameEn := item.nameEn, itemNameAr := item.nameAr,
          quantity := log.quantity, unit := item.unit, performedBy := uname,
          notes := some log.notes }
      let p := applyBulkLogs uname now location ids (k + 1) rest inv2
      (p.1, tx :: p.2)

/-- `handleBulkLog`: run the loop on the active location's inventory and
prepend the new transactions. -/
def handleBulkLog (user : User) (selLoc : Option String) (ids : Nat → String)
    (k : Nat) (now : String) (logs : List LogReq) (s : AppState) : AppState :=
  match selLoc with
  | none => s
  | some location =>
    if location = "" ∨ location = "all" then s
    else
      let p := applyBulkLogs user.name now location ids k logs
        (getLoc s.inventory location)
      { inventory := setLoc s.inventory location p.1,
        transactions := p.2 ++ s.transactions }

/-- One row of the mammal-employee log sheet (`LogEntry` with the numeric
fields already parsed: `Number(entry.received || 0)` etc.). -/
structure LogEntry where
  received : Int
  used : Int
  notes : String
deriving DecidableEq

/-- The validation loop of `handleSubmitAll` (MammalEmployeeDashboard.tsx
lines 80-97): entries for missing items are skipped (`continue`); otherwise
`received` and `used` must be non-negative and
`used ≤ item.quantity + received`. -/
def validateEntries (items : List InventoryItem) :
    List (String × LogEntry) → Bool
  | [] => true
  | (itemId, e) :: rest =>
    match items.find? (fun i => i.id == itemId) with
    | none => validateEntries items rest
    | some item =>
      if e.received < 0 ∨ e.used < 0 then false
      else if item.quantity + e.received < e.used then false
      else validateEntries items rest

/-- The receive log one entry contributes. -/
def recvLog (p : String × LogEntry) : LogReq :=
  { type := .receive, itemId := p.1, quantity := p.2.received, notes := p.2.notes }

/-- The usage log one entry contributes. -/
def usageLog (p : String × LogEntry) : LogReq :=
  { type := .usage, itemId := p.1, quantity := p.2.used, notes := p.2.notes }

/-- The receive logs prepared by `handleSubmitAll` (lines 102-109): one per
positive `received` amount. -/
def recvLogs (entries : List (String × LogEntry)) : List LogReq :=
  entries.filterMap (fun p => if 0 < p.2.received then some (recvLog p) else none)

/-- The usage logs prepared by `handleSubmitAll` (lines 111-118): one per
positive `used` amount. -/
def usageLogs (entries : List (String × LogEntry)) : List LogReq :=
  entries.filterMap (fun p => if 0 < p.2.used then some (usageLog p) else none)

/-- The log list built by `handleSubmitAll` (lines 100-118): all receives,
then all usages. -/
def buildLogs (entries : List (String × LogEntry)) : List LogReq :=
  recvLogs entries ++ usageLogs entries

/-- The bulk daily-log operation as submitted from the dashboard at location
`L`: `handleSubmitAll` validates every entry first and only then calls
`onBulkLogTransaction` = `handleBulkLog` (and does nothing when the built log
list is empty).  `none` means the batch was refused. -/
def submitAll (user : User) (L : String) (ids : Nat → String) (k : Nat)
    (now : String) (entries : List (String × LogEntry)) (s : AppState) :
    Option AppState :=
  if validateEntries (getLoc s.inventory L) entries then
    let logs := buildLogs entries
    if logs = [] then none
    else some (handleBulkLog user (some L) ids k now logs s)
  else none

/-! ## Notification emitter (App.tsx lines 243-268 and `handleLogout`,
lines 326-332) -/

/-- One run of the notification effect over a refreshed transaction list:
alert for every `pending_target` transaction addressed to the viewer's
location whose id is not yet in the notified set, then add those ids.
Returns the new notified set and the ids alerted in this run. -/
def notifyStep (selLoc : Option String) (txs : List Transaction)
    (notified : List String) : List String × List String :=
  let relevant := txs.filter (fun t =>
    t.toLocation == selLoc && t.status == .pending_target &&
    !(notified.contains t.id))
  (notified ++ relevant.map (·.id), relevant.map (·.id))

/-- A session-long sequence of log refreshes, each triggering the effect;
returns the final notified set and all alerted ids in order. -/
def runNotify (selLoc : Option String) :
    List (List Transaction) → List String → List String × List String
  | [], notified => (notified, [])
  | txs :: rest, notified =>
    let p := notifyStep selLoc txs notified
    let q := runNotify selLoc rest p.1
    (q.1, p.2 ++ q.2)

/-- `handleLogout` clears the notified-ids set (`notifiedIds.current.clear()`). -/
def handleLogout (_notified : List String) : List String := []

/-! ## Derived definitions used by the specifications -/

def nameKey (i : InventoryItem) : String × String × String × String :=
  (i.id, i.nameEn, i.nameAr, i.unit)

/-- Whether a refresh contains a transaction with id `x` that is relevant to
the notification effect viewing `selLoc` (addressed there, `pending_target`). -/
def hitsIn (selLoc : Option String) (x : String) (txs : List Transaction) : Bool :=
  txs.any (fun t =>
    t.id == x && t.toLocation == selLoc && t.status == .pending_target)

/-- The signed quantity change one log applies
(`log.type === 'usage' ? -q : +q`). -/
def logDelta (log : LogReq) : Int :=
  if log.type = .usage then -log.quantity else log.quantity

/-- The net quantity change a list of logs applies to the item with id `x`. -/
def netLog : List LogReq → String → Int
  | [], _ => 0
  | log :: rest, x => (if log.itemId = x then logDelta log else 0) + netLog rest x

/-- Total requested quantity addressed to the item id `x`. -/
def netReq : List TransferReq → String → Int
  | [], _ => 0
  | req :: rest, x => (if req.itemId = x then req.quantity else 0) + netReq rest x

/-- The deduction the initiation loop applies at one found item. -/
def deductFirst (req : TransferReq) (inv : List InventoryItem) :
    List InventoryItem :=
  updateFirst (fun i => i.id == req.itemId)
    (fun i => { i with quantity := i.quantity - req.quantity }) inv

/-- Total quantity credited to the item id `x` by receiving the listed
transactions, attributing each transaction to the id of its first
bilingual-name match in `inv0`. -/
def creditOf (inv0 : List InventoryItem) : List Transaction → String → Int
  | [], _ => 0
  | tx :: rest, x =>
    (if (inv0.find? (nameMatch tx)).map (·.id) = some x then tx.quantity else 0) +
      creditOf inv0 rest x

/-- The "manager of source" authority condition as a proposition, spelled out
the way the specification words it. -/
def isManagerOfSourceProp (user : User) (fl : String) : Prop :=
  (user.role = .branch_manager ∧ user.branchCode = some fl) ∨
  (user.role = .warehouse_manager ∧ (fl = "warehouse" ∨ fl = "mammal")) ∨
  user.role = .admin

/-- The transactions created by one `handleTransfer` call from `fl`. -/
def transferTxsOf (user : User) (fl toLocation gid now : String)
    (ids : Nat → String) (k : Nat) (items : List TransferReq)
    (inv : List InventoryItem) : List Transaction :=
  (transferCore (isManagerOfSource user fl)
    (if isManagerOfSource user fl then .pending_target else .pending_source)
    fl toLocation gid user.name now ids k items inv).2

/-- The net quantity change one bulk-log batch applies to the item id `x`:
its entry's positive received amount minus its positive used amount. -/
def entryDelta (entries : List (String × LogEntry)) (x : String) : Int :=
  match entries.find? (fun p => p.1 == x) with
  | some p => (if 0 < p.2.received then p.2.received else 0) -
      (if 0 < p.2.used then p.2.used else 0)
  | none => 0

/-! ### Concrete sample data for the witnesses -/

def sampleIds : Nat → String := fun n => "tmp-" ++ toString n

def userMgr : User :=
  { id := "u1", username := "mgr1", name := "Branch One Manager",
    role := .branch_manager, branchCode := some "b1" }

def userEmp : User :=
  { id := "u2", username := "emp1", name := "Mammal Employee",
    role := .mammal_employee }

def itemA : InventoryItem :=
  { id := "itemA", nameEn := "Rice", nameAr := "ar-Rice", category := "Grain",
    quantity := 10, unit := "kg", minThreshold := 2, lastUpdated := "D0" }

def itemB : InventoryItem :=
  { id := "itemB", nameEn := "Sugar", nameAr := "ar-Sugar", category := "Grain",
    quantity := 7, unit := "kg", minThreshold := 1, lastUpdated := "D0" }

def itemW : InventoryItem :=
  { id := "itemW", nameEn := "Rice", nameAr := "ar-Rice", category := "Grain",
    quantity := 4, unit := "kg", minThreshold := 0, lastUpdated := "D0" }

def itemOil : InventoryItem :=
  { id := "itemOil", nameEn := "Oil", nameAr := "ar-Oil", category := "Liquid",
    quantity := 3, unit := "L", minThreshold := 0, lastUpdated := "D0" }

def sampleState : AppState :=
  { inventory := [("b1", [itemA, itemB]), ("warehouse", [itemW])],
    transactions := [] }

/-- A pending-source transfer of 5 L of Oil out of `b1`, where `b1` only has
3 L in stock. -/
def txOil : Transaction :=
  { id := "t9", transferGroupId := some "G9", date := "D1", type := .transfer,
    status := .pending_source, fromLocation := some "b1",
    toLocation := some "warehouse", itemNameEn := "Oil", itemNameAr := "ar-Oil",
    quantity := 5, unit := "L", performedBy := "Someone" }

def sC2 : AppState :=
  { inventory := [("b1", [itemOil])], transactions := [txOil] }

/-- A pending-target transfer of 6 kg of Rice into `warehouse`, matching
`itemW` there by name. -/
def txIn : Transaction :=
  { id := "t5", transferGroupId := some "G5", date := "D1", type := .transfer,
    status := .pending_target, fromLocation := some "b1",
    toLocation := some "warehouse", itemNameEn := "Rice",
    itemNameAr := "ar-Rice", quantity := 6, unit := "kg",
    performedBy := "Branch One Manager" }

def sIn : AppState :=
  { inventory := [("b1", [itemA, itemB]), ("warehouse", [itemW])],
    transactions := [txIn] }

/-- The transaction `handleTransfer` creates for the witness round trip:
4 kg of Rice out of `b1`, initiated by its branch manager. -/
def txC3 : Transaction :=
  { id := "tmp-0", transferGroupId := some "G1", date := "D1",
    type := .transfer, status := .pending_target, fromLocation := some "b1",
    toLocation := some "warehouse", itemNameEn := "Rice",
    itemNameAr := "ar-Rice", quantity := 4, unit := "kg",
    performedBy := "Branch One Manager" }

/-! ## Helper lemmas: the inventory map -/

theorem getLoc_cons (p : String × List InventoryItem) (rest : Inventory)
    (loc : String) :
    getLoc (p :: rest) loc = if p.1 = loc then p.2 else getLoc rest loc := by
  by_cases hp : p.1 = loc <;> simp [getLoc, List.find?_cons, hp]

theorem setLoc_cons_ne (p : String × List InventoryItem) (rest : Inventory)
    (loc : String) (l : List InventoryItem) (hp : p.1 ≠ loc) :
    setLoc (p :: rest) loc l = p :: setLoc rest loc l := by
  by_cases hr : rest.any (fun q => q.1 == loc) <;>
    simp [setLoc, hp, hr]

theorem getLoc_map_replace (rest : Inventory) (loc loc' : String)
    (l : List InventoryItem) (h : loc' ≠ loc) :
    getLoc (rest.map (fun q => if q.1 == loc then (loc, l) else q)) loc' =
      getLoc rest loc' := by
  induction rest with
  | nil => rfl
  | cons q rest2 ih =>
    by_cases hq : q.1 = loc
    · rw [List.map_cons, if_pos (by simp [hq]), getLoc_cons, getLoc_cons,
        if_neg (by simpa using Ne.symm h), if_neg (by rw [hq]; exact Ne.symm h)]
      exact ih
    · rw [List.map_cons, if_neg (by simp [hq]), getLoc_cons, getLoc_cons]
      by_cases hq' : q.1 = loc'
      · rw [if_pos hq', if_pos hq']
      · rw [if_neg hq', if_neg hq']
        exact ih

theorem getLoc_setLoc_self (inv : Inventory) (loc : String)
    (l : List InventoryItem) : getLoc (setLoc inv loc l) loc = l := by
  induction inv with
  | nil => simp [setLoc, getLoc]
  | cons p rest ih =>
    by_cases hp : p.1 = loc
    · simp [setLoc, hp, getLoc_cons]
    · rw [setLoc_cons_ne _ _ _ _ hp, getLoc_cons, if_neg hp]
      exact ih

theorem getLoc_setLoc_ne (inv : Inventory) (loc loc' : String)
    (l : List InventoryItem) (h : loc' ≠ loc) :
    getLoc (setLoc inv loc l) loc' = getLoc inv loc' := by
  induction inv with
  | nil => simp [setLoc, getLoc, Ne.symm h]
  | cons p rest ih =>
    by_cases hp : p.1 = loc
    · rw [getLoc_cons, if_neg (by rw [hp]; exact Ne.symm h)]
      have : setLoc (p :: rest) loc l =
          (loc, l) :: rest.map (fun q => if q.1 == loc then (loc, l) else q) := by
        simp [setLoc, hp]
      rw [this, getLoc_cons, if_neg (by simpa using Ne.symm h)]
      exact getLoc_map_replace rest loc loc' l h
    · rw [setLoc_cons_ne _ _ _ _ hp, getLoc_cons, getLoc_cons]
      by_cases hp' : p.1 = loc' <;> simp [hp', ih]

/-! ## Helper lemmas: `updateFirst` -/

theorem updateFirst_cons {α : Type} (p : α → Bool) (f : α → α) (a : α)
    (l : List α) :
    updateFirst p f (a :: l) =
      if p a then f a :: l else a :: updateFirst p f l := rfl

theorem updateFirst_map_proj {α β : Type} (p : α → Bool) (f : α → α)
    (proj : α → β) (hf : ∀ a, proj (f a) = proj a) (l : List α) :
    (updateFirst p f l).map proj = l.map proj := by
  induction l with
  | nil => rfl
  | cons a rest ih =>
    rw [updateFirst_cons]
    by_cases hp : p a
    · rw [if_pos hp, List.map_cons, List.map_cons, hf]
    · rw [if_neg hp, List.map_cons, List.map_cons, ih]

theorem updateFirst_eq_map_of_nodup (x : String) (f : InventoryItem → InventoryItem)
    {l : List InventoryItem} (h : (itemIds l).Nodup) :
    updateFirst (fun i => i.id == x) f l =
      l.map (fun i => if i.id == x then f i else i) := by
  induction l with
  | nil => rfl
  | cons a rest ih =>
    simp only [itemIds, List.map_cons, List.nodup_cons] at h
    rw [updateFirst_cons, List.map_cons]
    by_cases ha : a.id = x
    · rw [if_pos (by simp [ha]), if_pos (by simp [ha])]
      have hrest : rest.map (fun i => if i.id == x then f i else i) = rest := by
        conv_rhs => rw [← List.map_id rest]
        refine List.map_congr_left fun i hi => ?_
        have hne : i.id ≠ x := fun hx =>
          h.1 (List.mem_map.mpr ⟨i, hi, by rw [hx, ha]⟩)
        simp [hne]
      rw [hrest]
    · rw [if_neg (by simp [ha]), if_neg (by simp [ha]), ih h.2]

/-! ## Helper lemmas: name-key stability

All inventory updates performed by the transfer lifecycle change only the
`quantity` field, so the projection to `(id, nameEn, nameAr, unit)` is
invariant; lookups by id or by bilingual name factor through it. -/

theorem find?_congr_proj {α β : Type} (proj : α → β) (q : β → Bool) :
    ∀ {l₁ l₂ : List α}, l₁.map proj = l₂.map proj →
      (l₁.find? (fun i => q (proj i))).map proj =
        (l₂.find? (fun i => q (proj i))).map proj := by
  intro l₁
  induction l₁ with
  | nil => intro l₂ h; cases l₂ <;> simp_all
  | cons a rest ih =>
    intro l₂ h
    cases l₂ with
    | nil => simp at h
    | cons b rest2 =>
      simp only [List.map_cons, List.cons.injEq] at h
      by_cases hq : q (proj a)
      · simp [List.find?_cons, hq, h.1 ▸ hq, h.1]
      · have hq2 : ¬ q (proj b) := by rw [← h.1]; exact hq
        simpa [List.find?_cons, hq, hq2] using ih h.2

theorem map_ite_quantity_nameKey (c : InventoryItem → Bool)
    (g : InventoryItem → Int) (l : List InventoryItem) :
    (l.map (fun i => if c i then { i with quantity := g i } else i)).map nameKey =
      l.map nameKey := by
  rw [List.map_map]
  refine List.map_congr_left fun i _ => ?_
  by_cases hc : c i <;> simp [hc, nameKey]

theorem updateFirst_quantity_nameKey (p : InventoryItem → Bool)
    (g : InventoryItem → Int) (l : List InventoryItem) :
    (updateFirst p (fun i => { i with quantity := g i }) l).map nameKey =
      l.map nameKey :=
  updateFirst_map_proj p (fun i => { i with quantity := g i }) nameKey
    (fun _ => rfl) l

theorem itemIds_of_nameKey {l₁ l₂ : List InventoryItem}
    (h : l₁.map nameKey = l₂.map nameKey) : itemIds l₁ = itemIds l₂ := by
  have := congrArg (List.map (·.1)) h
  simpa [itemIds, List.map_map, nameKey] using this

theorem find?_id_nameKey (x : String) {l₁ l₂ : List InventoryItem}
    (h : l₁.map nameKey = l₂.map nameKey) :
    (l₁.find? (fun i => i.id == x)).map nameKey =
      (l₂.find? (fun i => i.id == x)).map nameKey :=
  find?_congr_proj nameKey (fun b => b.1 == x) h

theorem find?_nameMatch_nameKey (tx : Transaction) {l₁ l₂ : List InventoryItem}
    (h : l₁.map nameKey = l₂.map nameKey) :
    (l₁.find? (nameMatch tx)).map nameKey =
      (l₂.find? (nameMatch tx)).map nameKey :=
  find?_congr_proj nameKey
    (fun b => b.2.1 == tx.itemNameEn || b.2.2.1 == tx.itemNameAr) h

theorem quantity_congr (i : InventoryItem) {a b : Int} (h : a = b) :
    ({ i with quantity := a } : InventoryItem) = { i with quantity := b } := by
  rw [h]

theorem map_quantity_add_zero (l : List InventoryItem) (g : String → Int)
    (h : ∀ i ∈ l, g i.id = 0) :
    l.map (fun i => { i with quantity := i.quantity + g i.id }) = l := by
  conv_rhs => rw [← List.map_id l]
  refine List.map_congr_left fun i hi => ?_
  rw [h i hi, add_zero]
  rfl

/-! ## Net effect of the bulk-log loop -/

theorem itemIds_updateFirst (p : InventoryItem → Bool)
    (g : InventoryItem → Int) (l : List InventoryItem) :
    itemIds (updateFirst p (fun i => { i with quantity := g i }) l) = itemIds l :=
  updateFirst_map_proj p (fun i => { i with quantity := g i }) (·.id)
    (fun _ => rfl) l

/-- The bulk-log loop changes every item's quantity by exactly the net of the
logs addressed to its id (items never appear, disappear or change order). -/
theorem applyBulkLogs_inventory (uname now location : String)
    (ids : Nat → String) : ∀ (logs : List LogReq) (k : Nat)
    (inv : List InventoryItem), (itemIds inv).Nodup →
    (applyBulkLogs uname now location ids k logs inv).1 =
      inv.map (fun i => { i with quantity := i.quantity + netLog logs i.id }) := by
  intro logs
  induction logs with
  | nil =>
    intro k inv _
    rw [show (applyBulkLogs uname now location ids k [] inv).1 = inv from rfl]
    exact (map_quantity_add_zero inv (fun x => netLog [] x) (fun _ _ => rfl)).symm
  | cons log rest ih =>
    intro k inv h
    cases hf : inv.find? (fun i => i.id == log.itemId) with
    | none =>
      have hnone : ∀ i ∈ inv, i.id ≠ log.itemId := by
        intro i hi
        have := List.find?_eq_none.mp hf i hi
        simpa using this
      have hstep : applyBulkLogs uname now location ids k (log :: rest) inv =
          applyBulkLogs uname now location ids k rest inv := by
        simp only [applyBulkLogs, hf]
      rw [hstep, ih k inv h]
      refine List.map_congr_left fun i hi => ?_
      refine quantity_congr i ?_
      rw [show netLog (log :: rest) i.id =
        (if log.itemId = i.id then logDelta log else 0) + netLog rest i.id from rfl,
        if_neg (fun hx => hnone i hi hx.symm), zero_add]
    | some item =>
      have hstep : (applyBulkLogs uname now location ids k (log :: rest) inv).1 =
          (applyBulkLogs uname now location ids (k + 1) rest
            (updateFirst (fun i => i.id == log.itemId)
              (fun i => { i with quantity :=
                if log.type == .usage then i.quantity - log.quantity
                else i.quantity + log.quantity }) inv)).1 := by
        simp only [applyBulkLogs, hf]
      rw [hstep]
      have hids : (itemIds (updateFirst (fun i => i.id == log.itemId)
          (fun i => { i with quantity :=
            if log.type == .usage then i.quantity - log.quantity
            else i.quantity + log.quantity }) inv)).Nodup := by
        rw [itemIds_updateFirst]; exact h
      rw [ih (k + 1) _ hids,
        updateFirst_eq_map_of_nodup log.itemId _ h, List.map_map]
      refine List.map_congr_left fun i _ => ?_
      by_cases hid : i.id = log.itemId
      · rw [Function.comp_apply, if_pos (by simp [hid])]
        refine quantity_congr i ?_
        rw [show netLog (log :: rest) i.id =
          (if log.itemId = i.id then logDelta log else 0) + netLog rest i.id from rfl,
          if_pos hid.symm]
        by_cases ht : log.type = .usage
        · rw [if_pos (by simp [ht]), show logDelta log = -log.quantity from by
            simp [logDelta, ht]]
          ring
        · rw [if_neg (by simp [ht]), show logDelta log = log.quantity from by
            simp [logDelta, ht]]
          ring
      · rw [Function.comp_apply, if_neg (by simp [hid])]
        refine quantity_congr i ?_
        rw [show netLog (log :: rest) i.id =
          (if log.itemId = i.id then logDelta log else 0) + netLog rest i.id from rfl,
          if_neg (fun hx => hid hx.symm), zero_add]

/-- When every log addresses an item id present in the inventory, the loop
emits exactly one transaction per log. -/
theorem applyBulkLogs_txs_length (uname now location : String)
    (ids : Nat → String) : ∀ (logs : List LogReq) (k : Nat)
    (inv : List InventoryItem), (∀ log ∈ logs, log.itemId ∈ itemIds inv) →
    (applyBulkLogs uname now location ids k logs inv).2.length = logs.length := by
  intro logs
  induction logs with
  | nil => intro k inv _; rfl
  | cons log rest ih =>
    intro k inv hmem
    cases hf : inv.find? (fun i => i.id == log.itemId) with
    | none =>
      exfalso
      obtain ⟨i, hi, hid⟩ := List.mem_map.mp (hmem log (List.mem_cons_self log rest))
      exact absurd (by simpa using List.find?_eq_none.mp hf i hi) (by simp [hid])
    | some item =>
      have hstep : (applyBulkLogs uname now location ids k
          (log :: rest) inv).2.length =
          (applyBulkLogs uname now location ids (k + 1) rest
            (updateFirst (fun i => i.id == log.itemId)
              (fun i => { i with quantity :=
                if log.type == .usage then i.quantity - log.quantity
                else i.quantity + log.quantity }) inv)).2.length + 1 := by
        simp only [applyBulkLogs, hf, List.length_cons]
      rw [hstep, ih, List.length_cons]
      intro l hl
      rw [itemIds_updateFirst]
      exact hmem l (List.mem_cons_of_mem log hl)

/-- Every transaction the bulk-log loop emits is `completed`. -/
theorem applyBulkLogs_txs_completed (uname now location : String)
    (ids : Nat → String) : ∀ (logs : List LogReq) (k : Nat)
    (inv : List InventoryItem) (tx : Transaction),
    tx ∈ (applyBulkLogs uname now location ids k logs inv).2 →
    tx.status = .completed := by
  intro logs
  induction logs with
  | nil => intro k inv tx htx; simp [applyBulkLogs] at htx
  | cons log rest ih =>
    intro k inv tx htx
    cases hf : inv.find? (fun i => i.id == log.itemId) with
    | none =>
      rw [show (applyBulkLogs uname now location ids k (log :: rest) inv).2 =
        (applyBulkLogs uname now location ids k rest inv).2 from by
          simp only [applyBulkLogs, hf]] at htx
      exact ih k inv tx htx
    | some item =>
      rw [show (applyBulkLogs uname now location ids k (log :: rest) inv).2 =
        { id := ids k, date := now, type := log.type, status := .completed,
          fromLocation := some (if log.type == .usage then location
            else "External Supplier"),
          toLocation := some (if log.type == .usage then "Consumed" else location),
          itemNameEn := item.nameEn, itemNameAr := item.nameAr,
          quantity := log.quantity, unit := item.unit, performedBy := uname,
          notes := some log.notes } :: (applyBulkLogs uname now location ids (k + 1)
            rest (updateFirst (fun i => i.id == log.itemId)
              (fun i => { i with quantity :=
                if log.type == .usage then i.quantity - log.quantity
                else i.quantity + log.quantity }) inv)).2 from by
          simp only [applyBulkLogs, hf]] at htx
      rcases List.mem_cons.mp htx with h1 | h2
      · rw [h1]
      · exact ih (k + 1) _ tx h2

/-! ## Net effect of the transfer-initiation loop -/

/-- Manager case: the initiation loop deducts from every item exactly the net
requested quantity for its id. -/
theorem transferCore_inventory_mgr (st : TransactionStatus)
    (fromL toL gid uname now : String) (ids : Nat → String) :
    ∀ (reqs : List TransferReq) (k : Nat) (inv : List InventoryItem),
    (itemIds inv).Nodup →
    (transferCore true st fromL toL gid uname now ids k reqs inv).1 =
      inv.map (fun i => { i with quantity := i.quantity - netReq reqs i.id }) := by
  intro reqs
  induction reqs with
  | nil =>
    intro k inv _
    rw [show (transferCore true st fromL toL gid uname now ids k [] inv).1 = inv
      from rfl]
    conv_lhs => rw [← List.map_id inv]
    refine List.map_congr_left fun i _ => ?_
    rw [show netReq [] i.id = 0 from rfl, id, sub_zero]
  | cons req rest ih =>
    intro k inv h
    cases hf : inv.find? (fun i => i.id == req.itemId) with
    | none =>
      have hnone : ∀ i ∈ inv, i.id ≠ req.itemId := by
        intro i hi
        simpa using List.find?_eq_none.mp hf i hi
      rw [show (transferCore true st fromL toL gid uname now ids k
          (req :: rest) inv).1 =
        (transferCore true st fromL toL gid uname now ids k rest inv).1 from by
          simp only [transferCore, hf], ih k inv h]
      refine List.map_congr_left fun i hi => ?_
      refine quantity_congr i ?_
      rw [show netReq (req :: rest) i.id =
        (if req.itemId = i.id then req.quantity else 0) + netReq rest i.id from rfl,
        if_neg (fun hx => hnone i hi hx.symm), zero_add]
    | some src =>
      have hstep : (transferCore true st fromL toL gid uname now ids k
          (req :: rest) inv).1 =
        (transferCore true st fromL toL gid uname now ids (k + 1) rest
          (updateFirst (fun i => i.id == req.itemId)
            (fun i => { i with quantity := i.quantity - req.quantity }) inv)).1 := by
        simp only [transferCore, hf, if_pos]
      have hids : (itemIds (updateFirst (fun i => i.id == req.itemId)
          (fun i => { i with quantity := i.quantity - req.quantity }) inv)).Nodup := by
        rw [itemIds_updateFirst]; exact h
      rw [hstep, ih (k + 1) _ hids,
        updateFirst_eq_map_of_nodup req.itemId _ h, List.map_map]
      refine List.map_congr_left fun i _ => ?_
      by_cases hid : i.id = req.itemId
      · rw [Function.comp_apply, if_pos (by simp [hid])]
        refine quantity_congr i ?_
        rw [show netReq (req :: rest) i.id =
          (if req.itemId = i.id then req.quantity else 0) + netReq rest i.id from rfl,
          if_pos hid.symm]
        ring
      · rw [Function.comp_apply, if_neg (by simp [hid])]
        refine quantity_congr i ?_
        rw [show netReq (req :: rest) i.id =
          (if req.itemId = i.id then req.quantity else 0) + netReq rest i.id from rfl,
          if_neg (fun hx => hid hx.symm), zero_add]

/-- Non-manager case: the initiation loop never touches the inventory. -/
theorem transferCore_inventory_nonmgr (st : TransactionStatus)
    (fromL toL gid uname now : String) (ids : Nat → String) :
    ∀ (reqs : List TransferReq) (k : Nat) (inv : List InventoryItem),
    (transferCore false st fromL toL gid uname now ids k reqs inv).1 = inv := by
  intro reqs
  induction reqs with
  | nil => intro k inv; rfl
  | cons req rest ih =>
    intro k inv
    cases hf : inv.find? (fun i => i.id == req.itemId) with
    | none =>
      rw [show (transferCore false st fromL toL gid uname now ids k
          (req :: rest) inv).1 =
        (transferCore false st fromL toL gid uname now ids k rest inv).1 from by
          simp only [transferCore, hf]]
      exact ih k inv
    | some src =>
      rw [show (transferCore false st fromL toL gid uname now ids k
          (req :: rest) inv).1 =
        (transferCore false st fromL toL gid uname now ids (k + 1) rest inv).1
        from by simp only [transferCore, hf, if_neg]; rfl]
      exact ih (k + 1) inv

/-- Shape of every transaction built by the initiation loop. -/
theorem transferCore_txs_mem (mgr : Bool) (st : TransactionStatus)
    (fromL toL gid uname now : String) (ids : Nat → String) :
    ∀ (reqs : List TransferReq) (k : Nat) (inv : List InventoryItem)
    (tx : Transaction),
    tx ∈ (transferCore mgr st fromL toL gid uname now ids k reqs inv).2 →
    tx.transferGroupId = some gid ∧ tx.type = .transfer ∧ tx.status = st ∧
      tx.fromLocation = some fromL ∧ tx.toLocation = some toL ∧
      tx.performedBy = uname := by
  intro reqs
  induction reqs with
  | nil => intro k inv tx htx; simp [transferCore] at htx
  | cons req rest ih =>
    intro k inv tx htx
    cases hf : inv.find? (fun i => i.id == req.itemId) with
    | none =>
      rw [show (transferCore mgr st fromL toL gid uname now ids k
          (req :: rest) inv).2 =
        (transferCore mgr st fromL toL gid uname now ids k rest inv).2 from by
          simp only [transferCore, hf]] at htx
      exact ih k inv tx htx
    | some src =>
      rw [show (transferCore mgr st fromL toL gid uname now ids k
          (req :: rest) inv).2 =
        { id := ids k, transferGroupId := some gid, date := now,
          type := .transfer, status := st,
          fromLocation := some fromL, toLocation := some toL,
          itemNameEn := src.nameEn, itemNameAr := src.nameAr,
          quantity := req.quantity, unit := src.unit, performedBy := uname } ::
        (transferCore mgr st fromL toL gid uname now ids (k + 1) rest
          (if mgr then updateFirst (fun i => i.id == req.itemId)
            (fun i => { i with quantity := i.quantity - req.quantity }) inv
           else inv)).2 from by
          simp only [transferCore, hf]] at htx
      rcases List.mem_cons.mp htx with h1 | h2
      · rw [h1]; exact ⟨rfl, rfl, rfl, rfl, rfl, rfl⟩
      · exact ih (k + 1) _ tx h2

theorem nameKey_step_transfer (mgr : Bool) (req : TransferReq)
    (inv : List InventoryItem) :
    (if mgr then deductFirst req inv else inv).map nameKey = inv.map nameKey := by
  cases mgr
  · rw [if_neg (by simp)]
  · rw [if_pos rfl]
    exact updateFirst_quantity_nameKey _ _ inv

/-- When every requested item id is present, the initiation loop emits exactly
one transaction per request. -/
theorem transferCore_txs_length (mgr : Bool) (st : TransactionStatus)
    (fromL toL gid uname now : String) (ids : Nat → String) :
    ∀ (reqs : List TransferReq) (k : Nat) (inv : List InventoryItem),
    (∀ req ∈ reqs, req.itemId ∈ itemIds inv) →
    (transferCore mgr st fromL toL gid uname now ids k reqs inv).2.length =
      reqs.length := by
  intro reqs
  induction reqs with
  | nil => intro k inv _; rfl
  | cons req rest ih =>
    intro k inv hmem
    cases hf : inv.find? (fun i => i.id == req.itemId) with
    | none =>
      exfalso
      obtain ⟨i, hi, hid⟩ := List.mem_map.mp (hmem req (List.mem_cons_self req rest))
      exact absurd (by simpa using List.find?_eq_none.mp hf i hi) (by simp [hid])
    | some src =>
      have hstep : (transferCore mgr st fromL toL gid uname now ids k
          (req :: rest) inv).2.length =
          (transferCore mgr st fromL toL gid uname now ids (k + 1) rest
            (if mgr then deductFirst req inv else inv)).2.length + 1 := by
        simp only [transferCore, hf, deductFirst, List.length_cons]
      rw [hstep, ih, List.length_cons]
      intro r hr
      rw [itemIds_of_nameKey (nameKey_step_transfer mgr req inv)]
      exact hmem r (List.mem_cons_of_mem req hr)

/-- Each emitted transaction carries the requested quantity and the bilingual
name and unit of the source item resolved by the request's id, pairing the
request list with the transaction list in order. -/
theorem transferCore_txs_names (mgr : Bool) (st : TransactionStatus)
    (fromL toL gid uname now : String) (ids : Nat → String) :
    ∀ (reqs : List TransferReq) (k : Nat) (inv : List InventoryItem),
    (∀ req ∈ reqs, req.itemId ∈ itemIds inv) →
    List.Forall₂ (fun (req : TransferReq) (tx : Transaction) =>
      tx.quantity = req.quantity ∧ ∃ src,
        inv.find? (fun i => i.id == req.itemId) = some src ∧
        tx.itemNameEn = src.nameEn ∧ tx.itemNameAr = src.nameAr ∧
        tx.unit = src.unit)
      reqs (transferCore mgr st fromL toL gid uname now ids k reqs inv).2 := by
  intro reqs
  induction reqs with
  | nil => intro k inv _; exact List.Forall₂.nil
  | cons req rest ih =>
    intro k inv hmem
    cases hf : inv.find? (fun i => i.id == req.itemId) with
    | none =>
      exfalso
      obtain ⟨i, hi, hid⟩ := List.mem_map.mp (hmem req (List.mem_cons_self req rest))
      exact absurd (by simpa using List.find?_eq_none.mp hf i hi) (by simp [hid])
    | some src =>
      rw [show (transferCore mgr st fromL toL gid uname now ids k
          (req :: rest) inv).2 =
        { id := ids k, transferGroupId := some gid, date := now,
          type := .transfer, status := st,
          fromLocation := some fromL, toLocation := some toL,
          itemNameEn := src.nameEn, itemNameAr := src.nameAr,
          quantity := req.quantity, unit := src.unit, performedBy := uname } ::
        (transferCore mgr st fromL toL gid uname now ids (k + 1) rest
          (if mgr then deductFirst req inv else inv)).2 from by
          simp only [transferCore, hf, deductFirst]]
      refine List.Forall₂.cons ⟨rfl, src, hf, rfl, rfl, rfl⟩ ?_
      have hkey := nameKey_step_transfer mgr req inv
      have hmem2 : ∀ r ∈ rest,
          r.itemId ∈ itemIds (if mgr then deductFirst req inv else inv) := by
        intro r hr
        rw [itemIds_of_nameKey hkey]
        exact hmem r (List.mem_cons_of_mem req hr)
      refine (ih (k + 1) _ hmem2).imp ?_
      rintro r tx ⟨hq, src', hfind2, hEn, hAr, hUn⟩
      refine ⟨hq, ?_⟩
      have hproj := find?_id_nameKey r.itemId hkey
      rw [hfind2] at hproj
      obtain ⟨src₀, hfind0, hk0⟩ := Option.map_eq_some'.mp hproj.symm
      have hcomp : src₀.id = src'.id ∧ src₀.nameEn = src'.nameEn ∧
          src₀.nameAr = src'.nameAr ∧ src₀.unit = src'.unit := by
        have := hk0
        simp only [nameKey, Prod.mk.injEq] at this
        exact this
      exact ⟨src₀, hfind0, by rw [hEn, hcomp.2.1], by rw [hAr, hcomp.2.2.1],
        by rw [hUn, hcomp.2.2.2]⟩

/-! ## Step lemmas for the single-transaction operations -/

theorem handleReceiveTransfer_found (newId now : String) (tx : Transaction)
    (s : AppState) (L : String) (destItem : InventoryItem)
    (hto : tx.toLocation = some L)
    (hfind : (getLoc s.inventory L).find? (nameMatch tx) = some destItem) :
    handleReceiveTransfer newId now tx s =
      { inventory := setLoc s.inventory L ((getLoc s.inventory L).map (fun i =>
          if i.id == destItem.id then { i with quantity := i.quantity + tx.quantity }
          else i)),
        transactions := setStatus tx.id .completed s.transactions } := by
  simp only [handleReceiveTransfer, hto, Option.getD_some, hfind]

theorem handleReceiveTransfer_notfound (newId now : String) (tx : Transaction)
    (s : AppState) (L : String)
    (hto : tx.toLocation = some L)
    (hfind : (getLoc s.inventory L).find? (nameMatch tx) = none) :
    handleReceiveTransfer newId now tx s =
      { inventory := setLoc s.inventory L ((getLoc s.inventory L) ++
          [{ id := newId, nameEn := tx.itemNameEn, nameAr := tx.itemNameAr,
             category := "Received", quantity := tx.quantity, unit := tx.unit,
             minThreshold := 0, lastUpdated := now }]),
        transactions := setStatus tx.id .completed s.transactions } := by
  simp only [handleReceiveTransfer, hto, Option.getD_some, hfind]

theorem handleConfirmSourceTransfer_found (tx : Transaction) (s : AppState)
    (L : String) (sourceItem : InventoryItem)
    (hfrom : tx.fromLocation = some L)
    (hfind : (getLoc s.inventory L).find? (nameMatch tx) = some sourceItem) :
    handleConfirmSourceTransfer tx s =
      { inventory := setLoc s.inventory L ((getLoc s.inventory L).map (fun i =>
          if i.id == sourceItem.id then { i with quantity := i.quantity - tx.quantity }
          else i)),
        transactions := setStatus tx.id .pending_target s.transactions } := by
  simp only [handleConfirmSourceTransfer, hfrom, Option.getD_some, hfind]

theorem handleConfirmSourceTransfer_notfound (tx : Transaction) (s : AppState)
    (L : String) (hfrom : tx.fromLocation = some L)
    (hfind : (getLoc s.inventory L).find? (nameMatch tx) = none) :
    handleConfirmSourceTransfer tx s =
      { inventory := s.inventory,
        transactions := setStatus tx.id .pending_target s.transactions } := by
  simp only [handleConfirmSourceTransfer, hfrom, Option.getD_some, hfind]

theorem handleRejectTransfer_not_deducted (newId now : String)
    (tx : Transaction) (reason : String) (s : AppState)
    (hst : tx.status ≠ .pending_target) :
    handleRejectTransfer newId now tx reason s =
      { inventory := s.inventory,
        transactions := s.transactions.map (fun t =>
          if t.id == tx.id
          then { t with status := .rejected, rejectionReason := some reason }
          else t) } := by
  simp only [handleRejectTransfer, beq_iff_eq, if_neg hst]

theorem handleRejectTransfer_deducted_found (newId now : String)
    (tx : Transaction) (reason : String) (s : AppState) (L : String)
    (sourceItem : InventoryItem)
    (hst : tx.status = .pending_target) (hfrom : tx.fromLocation = some L)
    (hfind : (getLoc s.inventory L).find? (nameMatch tx) = some sourceItem) :
    handleRejectTransfer newId now tx reason s =
      { inventory := setLoc s.inventory L ((getLoc s.inventory L).map (fun i =>
          if i.id == sourceItem.id then { i with quantity := i.quantity + tx.quantity }
          else i)),
        transactions := s.transactions.map (fun t =>
          if t.id == tx.id
          then { t with status := .rejected, rejectionReason := some reason }
          else t) } := by
  simp only [handleRejectTransfer, hfrom, Option.getD_some, hfind, hst,
    beq_self_eq_true, if_pos]

/-! ## The bulk-accept fold -/

theorem option_isSome_of_nameKey_eq {o₁ o₂ : Option InventoryItem}
    (h : o₁.map nameKey = o₂.map nameKey) : o₁.isSome = o₂.isSome := by
  cases o₁ <;> cases o₂ <;> simp_all

theorem option_id_of_nameKey_eq {o₁ o₂ : Option InventoryItem}
    (h : o₁.map nameKey = o₂.map nameKey) : o₁.map (·.id) = o₂.map (·.id) := by
  cases o₁ <;> cases o₂ <;> simp_all [nameKey]

theorem creditOf_congr {l₁ l₂ : List InventoryItem}
    (h : l₁.map nameKey = l₂.map nameKey) :
    ∀ (gr : List Transaction) (x : String), creditOf l₁ gr x = creditOf l₂ gr x := by
  intro gr
  induction gr with
  | nil => intro x; rfl
  | cons tx rest ih =>
    intro x
    rw [show creditOf l₁ (tx :: rest) x =
      (if (l₁.find? (nameMatch tx)).map (·.id) = some x then tx.quantity else 0) +
        creditOf l₁ rest x from rfl,
      show creditOf l₂ (tx :: rest) x =
      (if (l₂.find? (nameMatch tx)).map (·.id) = some x then tx.quantity else 0) +
        creditOf l₂ rest x from rfl,
      option_id_of_nameKey_eq (find?_nameMatch_nameKey tx h), ih x]

/-- Running `receiveTransfer` over a list of transactions all addressed to
the destination `L`, each with a bilingual-name match there: every matched
item is credited by the net of the transactions attributed to its id, no
other location changes, and every transaction of the log whose id occurs in
the list is completed. -/
theorem receiveAll_spec (ids : Nat → String) (now : String) (L : String) :
    ∀ (gr : List Transaction) (k : Nat) (s : AppState),
    (∀ tx ∈ gr, tx.toLocation = some L) →
    (∀ tx ∈ gr, ((getLoc s.inventory L).find? (nameMatch tx)).isSome) →
    (getLoc (receiveAll ids now k gr s).inventory L =
      (getLoc s.inventory L).map (fun i =>
        { i with quantity := i.quantity + creditOf (getLoc s.inventory L) gr i.id })) ∧
    (∀ L', L' ≠ L → getLoc (receiveAll ids now k gr s).inventory L' =
      getLoc s.inventory L') ∧
    ((receiveAll ids now k gr s).transactions =
      s.transactions.map (fun t => if gr.any (fun g => t.id == g.id)
        then { t with status := .completed } else t)) := by
  intro gr
  induction gr with
  | nil =>
    intro k s _ _
    refine ⟨?_, fun L' _ => rfl, ?_⟩
    · exact (map_quantity_add_zero (getLoc s.inventory L)
        (fun x => creditOf (getLoc s.inventory L) [] x) (fun _ _ => rfl)).symm
    · conv_lhs => rw [show (receiveAll ids now k [] s) = s from rfl,
        ← List.map_id s.transactions]
      refine List.map_congr_left fun t _ => ?_
      simp
  | cons tx rest ih =>
    intro k s hloc hmatch
    have hto : tx.toLocation = some L := hloc tx (List.mem_cons_self tx rest)
    obtain ⟨destItem, hfind⟩ := Option.isSome_iff_exists.mp
      (hmatch tx (List.mem_cons_self tx rest))
    have hstep : receiveAll ids now k (tx :: rest) s =
        receiveAll ids now (k + 1) rest (handleReceiveTransfer (ids k) now tx s) :=
      rfl
    have hrecv := handleReceiveTransfer_found (ids k) now tx s L destItem hto hfind
    have hL1 : getLoc (handleReceiveTransfer (ids k) now tx s).inventory L =
        (getLoc s.inventory L).map (fun i =>
          if i.id == destItem.id then { i with quantity := i.quantity + tx.quantity }
          else i) := by
      rw [hrecv]; exact getLoc_setLoc_self _ _ _
    have hkey : (getLoc (handleReceiveTransfer (ids k) now tx s).inventory L).map
        nameKey = (getLoc s.inventory L).map nameKey := by
      rw [hL1]
      exact map_ite_quantity_nameKey (fun i => i.id == destItem.id)
        (fun i => i.quantity + tx.quantity) (getLoc s.inventory L)
    obtain ⟨ha, hb, hc⟩ := ih (k + 1) (handleReceiveTransfer (ids k) now tx s)
      (fun t ht => hloc t (List.mem_cons_of_mem tx ht))
      (fun t ht => by
        rw [option_isSome_of_nameKey_eq (find?_nameMatch_nameKey t hkey)]
        exact hmatch t (List.mem_cons_of_mem tx ht))
    have hkey1 : ((getLoc s.inventory L).map (fun i =>
        if i.id == destItem.id then { i with quantity := i.quantity + tx.quantity }
        else i)).map nameKey = (getLoc s.inventory L).map nameKey :=
      map_ite_quantity_nameKey (fun i => i.id == destItem.id)
        (fun i => i.quantity + tx.quantity) (getLoc s.inventory L)
    refine ⟨?_, ?_, ?_⟩
    · rw [hstep, ha, hL1, List.map_map]
      refine List.map_congr_left fun i hi => ?_
      rw [Function.comp_apply]
      have hcred : creditOf ((getLoc s.inventory L).map (fun j =>
          if j.id == destItem.id then { j with quantity := j.quantity + tx.quantity }
          else j)) rest i.id = creditOf (getLoc s.inventory L) rest i.id :=
        creditOf_congr hkey1 rest i.id
      have hcons : creditOf (getLoc s.inventory L) (tx :: rest) i.id =
          (if ((getLoc s.inventory L).find? (nameMatch tx)).map (·.id) = some i.id
            then tx.quantity else 0) + creditOf (getLoc s.inventory L) rest i.id :=
        rfl
      by_cases hid : i.id = destItem.id
      · rw [if_pos (by simp [hid])]
        show ({ i with
                quantity := (i.quantity + tx.quantity) +
                  creditOf ((getLoc s.inventory L).map (fun j =>
                    if j.id == destItem.id
                    then { j with quantity := j.quantity + tx.quantity }
                    else j)) rest i.id } : InventoryItem) = _
        rw [hcred]
        refine quantity_congr i ?_
        rw [hcons, hfind, show (some destItem).map (·.id) = some destItem.id
          from rfl, if_pos (by rw [hid])]
        ring
      · rw [if_neg (by simp [hid])]
        rw [hcred]
        refine quantity_congr i ?_
        rw [hcons, hfind, show (some destItem).map (·.id) = some destItem.id
          from rfl, if_neg (fun hx => hid (Option.some.inj hx).symm), zero_add]
    · intro L' hL'
      rw [hstep, hb L' hL', hrecv]
      exact getLoc_setLoc_ne _ _ _ _ hL'
    · rw [hstep, hc, hrecv]
      rw [show (setStatus tx.id TransactionStatus.completed s.transactions) =
        s.transactions.map (fun t => if t.id == tx.id
          then { t with status := .completed } else t) from rfl, List.map_map]
      refine List.map_congr_left fun t _ => ?_
      by_cases h1 : t.id = tx.id
      · by_cases h2 : (rest.any fun g => t.id == g.id) = true
        · simp [h1, h2, List.any_cons]
        · simp [h1, h2, List.any_cons]
      · rw [Function.comp_apply,
          if_neg (show ¬ (t.id == tx.id) = true from by simp [h1]),
          List.any_cons, show (t.id == tx.id) = false from by simp [h1],
          Bool.false_or]

/-! ## Claim C1 -/

theorem validateItems_eq_false_of_exceed (inv : List InventoryItem) :
    ∀ (reqs : List TransferReq),
    (∃ req ∈ reqs, qtyAt inv req.itemId < req.quantity) →
    validateItems inv reqs = false := by
  intro reqs
  induction reqs with
  | nil => rintro ⟨req, hmem, _⟩; simp at hmem
  | cons req rest ih =>
    rintro ⟨r, hr, hlt⟩
    have hunf : validateItems inv (req :: rest) =
        if req.quantity ≤ 0 then false
        else if qtyAt inv req.itemId < req.quantity then false
        else validateItems inv rest := rfl
    by_cases h0 : req.quantity ≤ 0
    · rw [hunf, if_pos h0]
    · by_cases h1 : qtyAt inv req.itemId < req.quantity
      · rw [hunf, if_neg h0, if_pos h1]
      · rcases List.mem_cons.mp hr with heq | hr2
        · exact absurd (heq ▸ hlt) h1
        · rw [hunf, if_neg h0, if_neg h1]
          exact ih ⟨r, hr2, hlt⟩

/-- C1: the transfer-initiation operation (`TransferModal.handleSubmit`
feeding `handleTransfer`) is refused outright — no state change of any kind —
whenever the destination is unset, the item list is empty, or any single
listed quantity exceeds the item's current quantity at the source. -/
theorem C1_initiation_refused (user : User) (L : String) (ids : Nat → String)
    (k : Nat) (gid now : String) (transferList : List TransferReq)
    (targetLocation : String) (s : AppState)
    (h : targetLocation = "" ∨ transferList = [] ∨
      ∃ req ∈ transferList,
        qtyAt (getLoc s.inventory L) req.itemId < req.quantity) :
    submitTransfer user L ids k gid now transferList targetLocation s = none := by
  unfold submitTransfer
  by_cases he : transferList = []
  · rw [if_pos he]
  · rw [if_neg he]
    by_cases ht : targetLocation = ""
    · rw [if_pos ht]
    · rw [if_neg ht]
      have hex : ∃ req ∈ transferList,
          qtyAt (getLoc s.inventory L) req.itemId < req.quantity := by
        rcases h with h | h | h
        · exact absurd h ht
        · exact absurd h he
        · exact h
      rw [validateItems_eq_false_of_exceed (getLoc s.inventory L) transferList hex]
      simp

theorem C1_initiation_refused_witness :
    (qtyAt (getLoc sampleState.inventory "b1") "itemA" < 15) ∧
    submitTransfer userMgr "b1" sampleIds 0 "G1" "D1" [⟨"itemA", 15⟩]
      "warehouse" sampleState = none :=
  ⟨by decide,
   C1_initiation_refused userMgr "b1" sampleIds 0 "G1" "D1" [⟨"itemA", 15⟩]
     "warehouse" sampleState
     (Or.inr (Or.inr ⟨⟨"itemA", 15⟩, by decide, by decide⟩))⟩

/-! ## Claim C4 -/

theorem isManagerOfSource_iff (user : User) (fl : String) :
    isManagerOfSource user fl = true ↔ isManagerOfSourceProp user fl := by
  simp only [isManagerOfSource, isManagerOfSourceProp, Bool.or_eq_true,
    Bool.and_eq_true, beq_iff_eq]
  tauto

theorem handleTransfer_resolved (user : User) (selLoc : Option String)
    (ids : Nat → String) (k : Nat) (gid now : String)
    (items : List TransferReq) (toLocation : String) (srcOv : Option String)
    (s : AppState) (fl : String)
    (hres : resolveFrom srcOv selLoc = some fl)
    (h1 : fl ≠ "") (h2 : fl ≠ "all") :
    handleTransfer user selLoc ids k gid now items toLocation srcOv s =
      { inventory := if isManagerOfSource user fl
          then setLoc s.inventory fl
            (transferCore (isManagerOfSource user fl)
              (if isManagerOfSource user fl then .pending_target
               else .pending_source)
              fl toLocation gid user.name now ids k items
              (getLoc s.inventory fl)).1
          else s.inventory,
        transactions :=
          transferTxsOf user fl toLocation gid now ids k items
            (getLoc s.inventory fl) ++ s.transactions } := by
  simp only [handleTransfer, hres]
  rw [if_neg (not_or.mpr ⟨h1, h2⟩)]
  rfl

/-- C4: at initiation, the created transactions carry status `pending_target`
exactly when the actor is a manager of the source — branch manager of that
branch, warehouse manager when the source is the warehouse or mammal, or
admin — in which case each requested quantity is deducted at the source
immediately; otherwise they carry `pending_source` and the inventory is left
untouched. -/
theorem C4_authority_status (user : User) (selLoc : Option String)
    (ids : Nat → String) (k : Nat) (gid now : String)
    (items : List TransferReq) (toLocation : String) (srcOv : Option String)
    (s : AppState) (fl : String)
    (hres : resolveFrom srcOv selLoc = some fl)
    (h1 : fl ≠ "") (h2 : fl ≠ "all") :
    ((handleTransfer user selLoc ids k gid now items toLocation srcOv
        s).transactions =
      transferTxsOf user fl toLocation gid now ids k items
        (getLoc s.inventory fl) ++ s.transactions) ∧
    (∀ tx ∈ transferTxsOf user fl toLocation gid now ids k items
        (getLoc s.inventory fl),
      (tx.status = .pending_target ↔ isManagerOfSourceProp user fl) ∧
      (tx.status = .pending_source ↔ ¬ isManagerOfSourceProp user fl)) ∧
    (¬ isManagerOfSourceProp user fl →
      (handleTransfer user selLoc ids k gid now items toLocation srcOv
        s).inventory = s.inventory) ∧
    (isManagerOfSourceProp user fl →
      (itemIds (getLoc s.inventory fl)).Nodup →
      getLoc (handleTransfer user selLoc ids k gid now items toLocation srcOv
          s).inventory fl =
        (getLoc s.inventory fl).map (fun i =>
          { i with quantity := i.quantity - netReq items i.id }) ∧
      ∀ L', L' ≠ fl →
        getLoc (handleTransfer user selLoc ids k gid now items toLocation srcOv
          s).inventory L' = getLoc s.inventory L') := by
  have hunf := handleTransfer_resolved user selLoc ids k gid now items
    toLocation srcOv s fl hres h1 h2
  refine ⟨by rw [hunf], ?_, ?_, ?_⟩
  · intro tx htx
    have hshape := transferCore_txs_mem (isManagerOfSource user fl)
      (if isManagerOfSource user fl then .pending_target else .pending_source)
      fl toLocation gid user.name now ids items k (getLoc s.inventory fl) tx htx
    have hst := hshape.2.2.1
    by_cases hm : isManagerOfSource user fl = true
    · rw [hst, if_pos hm]
      have hp := (isManagerOfSource_iff user fl).mp hm
      constructor
      · exact ⟨fun _ => hp, fun _ => rfl⟩
      · exact ⟨fun hq => TransactionStatus.noConfusion hq,
          fun hq => absurd hp hq⟩
    · rw [hst, if_neg hm]
      have hp : ¬ isManagerOfSourceProp user fl :=
        fun hq => hm ((isManagerOfSource_iff user fl).mpr hq)
      constructor
      · exact ⟨fun hq => TransactionStatus.noConfusion hq,
          fun hq => absurd hq hp⟩
      · exact ⟨fun _ => hp, fun _ => rfl⟩
  · intro hnp
    have hm : isManagerOfSource user fl = false := by
      rcases Bool.eq_false_or_eq_true (isManagerOfSource user fl) with h | h
      · exact absurd ((isManagerOfSource_iff user fl).mp h) hnp
      · exact h
    rw [hunf]
    simp [hm]
  · intro hp hnd
    have hm : isManagerOfSource user fl = true :=
      (isManagerOfSource_iff user fl).mpr hp
    rw [hunf]
    constructor
    · simp only [hm, eq_self_iff_true, if_true]
      rw [getLoc_setLoc_self]
      exact transferCore_inventory_mgr .pending_target fl toLocation gid
        user.name now ids items k (getLoc s.inventory fl) hnd
    · intro L' hL'
      simp only [hm, eq_self_iff_true, if_true]
      exact getLoc_setLoc_ne _ _ _ _ hL'

theorem C4_authority_status_witness :
    (resolveFrom (some "b1") (some "b1") = some "b1") ∧
    (isManagerOfSourceProp userMgr "b1") ∧
    ((handleTransfer userMgr (some "b1") sampleIds 0 "G1" "D1"
        [⟨"itemA", 4⟩] "warehouse" (some "b1") sampleState).transactions =
      transferTxsOf userMgr "b1" "warehouse" "G1" "D1" sampleIds 0
        [⟨"itemA", 4⟩] (getLoc sampleState.inventory "b1") ++
        sampleState.transactions) ∧
    (∀ tx ∈ transferTxsOf userMgr "b1" "warehouse" "G1" "D1" sampleIds 0
        [⟨"itemA", 4⟩] (getLoc sampleState.inventory "b1"),
      (tx.status = .pending_target ↔ isManagerOfSourceProp userMgr "b1")) := by
  have h := C4_authority_status userMgr (some "b1") sampleIds 0 "G1" "D1"
    [⟨"itemA", 4⟩] "warehouse" (some "b1") sampleState "b1" rfl
    (by decide) (by decide)
  exact ⟨rfl, Or.inl ⟨rfl, rfl⟩, h.1, fun tx htx => (h.2.1 tx htx).1⟩

/-! ## Claim C2 -/

theorem find?_self_of_nodup {l : List InventoryItem}
    (hnd : (itemIds l).Nodup) {i : InventoryItem} (hi : i ∈ l) :
    l.find? (fun j => j.id == i.id) = some i := by
  induction l with
  | nil => simp at hi
  | cons a rest ih =>
    simp only [itemIds, List.map_cons, List.nodup_cons] at hnd
    rcases List.mem_cons.mp hi with heq | hmem
    · rw [heq]
      exact List.find?_cons_of_pos rest (by simp)
    · have hne : ¬ (a.id == i.id) = true := by
        simp only [beq_iff_eq]
        intro hx
        exact hnd.1 (hx ▸ List.mem_map.mpr ⟨i, hmem, rfl⟩)
      rw [List.find?_cons_of_neg rest hne]
      exact ih hnd.2 hmem

theorem netReq_eq_zero_of_not_mem (x : String) :
    ∀ (reqs : List TransferReq), x ∉ reqs.map (·.itemId) →
    netReq reqs x = 0 := by
  intro reqs
  induction reqs with
  | nil => intro _; rfl
  | cons req rest ih =>
    intro hx
    simp only [List.map_cons, List.mem_cons, not_or] at hx
    rw [show netReq (req :: rest) x =
      (if req.itemId = x then req.quantity else 0) + netReq rest x from rfl,
      if_neg (fun h => hx.1 h.symm), zero_add]
    exact ih hx.2

theorem validateItems_true_spec (inv : List InventoryItem) :
    ∀ (reqs : List TransferReq), validateItems inv reqs = true →
    ∀ req ∈ reqs, 0 < req.quantity ∧ req.quantity ≤ qtyAt inv req.itemId := by
  intro reqs
  induction reqs with
  | nil => intro _ req hreq; simp at hreq
  | cons req0 rest ih =>
    intro hval req hreq
    have hunf : validateItems inv (req0 :: rest) =
        if req0.quantity ≤ 0 then false
        else if qtyAt inv req0.itemId < req0.quantity then false
        else validateItems inv rest := rfl
    rw [hunf] at hval
    by_cases h0 : req0.quantity ≤ 0
    · rw [if_pos h0] at hval; exact absurd hval (by simp)
    · rw [if_neg h0] at hval
      by_cases h1 : qtyAt inv req0.itemId < req0.quantity
      · rw [if_pos h1] at hval; exact absurd hval (by simp)
      · rw [if_neg h1] at hval
        rcases List.mem_cons.mp hreq with heq | hmem
        · rw [heq]; exact ⟨by omega, by omega⟩
        · exact ih hval req hmem

theorem netReq_le_of_valid (inv : List InventoryItem) :
    ∀ (reqs : List TransferReq), validateItems inv reqs = true →
    (reqs.map (·.itemId)).Nodup →
    ∀ (x : String) (q0 : Int), qtyAt inv x = q0 → 0 ≤ q0 →
    netReq reqs x ≤ q0 := by
  intro reqs
  induction reqs with
  | nil => intro _ _ x q0 _ h0; simpa [netReq] using h0
  | cons req rest ih =>
    intro hval hnd x q0 hq hq0
    have hspec := validateItems_true_spec inv (req :: rest) hval
    have hrest : validateItems inv rest = true := by
      have hunf : validateItems inv (req :: rest) =
          if req.quantity ≤ 0 then false
          else if qtyAt inv req.itemId < req.quantity then false
          else validateItems inv rest := rfl
      rw [hunf] at hval
      by_cases h0 : req.quantity ≤ 0
      · rw [if_pos h0] at hval; exact absurd hval (by simp)
      · rw [if_neg h0] at hval
        by_cases h1 : qtyAt inv req.itemId < req.quantity
        · rw [if_pos h1] at hval; exact absurd hval (by simp)
        · rwa [if_neg h1] at hval
    simp only [List.map_cons, List.nodup_cons] at hnd
    rw [show netReq (req :: rest) x =
      (if req.itemId = x then req.quantity else 0) + netReq rest x from rfl]
    by_cases hx : req.itemId = x
    · rw [if_pos hx, netReq_eq_zero_of_not_mem x rest (hx ▸ hnd.1), add_zero]
      have := (hspec req (List.mem_cons_self req rest)).2
      rw [hx, hq] at this
      exact this
    · rw [if_neg hx, zero_add]
      exact ih hrest hnd.2 x q0 hq hq0

theorem netLog_eq_zero_of_notmem (x : String) :
    ∀ (logs : List LogReq), (∀ log ∈ logs, log.itemId ≠ x) →
    netLog logs x = 0 := by
  intro logs
  induction logs with
  | nil => intro _; rfl
  | cons log rest ih =>
    intro h
    rw [show netLog (log :: rest) x =
      (if log.itemId = x then logDelta log else 0) + netLog rest x from rfl,
      if_neg (h log (List.mem_cons_self log rest)), zero_add]
    exact ih fun l hl => h l (List.mem_cons_of_mem log hl)

theorem mem_keys_of_filterMap (F : String × LogEntry → Option LogReq)
    (hF : ∀ p log, F p = some log → log.itemId = p.1) :
    ∀ (entries : List (String × LogEntry)) (log : LogReq),
    log ∈ entries.filterMap F → log.itemId ∈ entries.map (·.1) := by
  intro entries log hlog
  obtain ⟨p, hp, hfp⟩ := List.mem_filterMap.mp hlog
  exact List.mem_map.mpr ⟨p, hp, (hF p log hfp).symm⟩

theorem recvLogs_itemId (p : String × LogEntry) (log : LogReq)
    (h : (if 0 < p.2.received then some (recvLog p) else none) = some log) :
    log.itemId = p.1 := by
  by_cases hr : 0 < p.2.received
  · rw [if_pos hr] at h
    rw [← Option.some.inj h]
    rfl
  · rw [if_neg hr] at h; exact absurd h (by simp)

theorem usageLogs_itemId (p : String × LogEntry) (log : LogReq)
    (h : (if 0 < p.2.used then some (usageLog p) else none) = some log) :
    log.itemId = p.1 := by
  by_cases hr : 0 < p.2.used
  · rw [if_pos hr] at h
    rw [← Option.some.inj h]
    rfl
  · rw [if_neg hr] at h; exact absurd h (by simp)

theorem netLog_recvLogs (x : String) :
    ∀ (entries : List (String × LogEntry)), (entries.map (·.1)).Nodup →
    netLog (recvLogs entries) x =
      match entries.find? (fun p => p.1 == x) with
      | some p => if 0 < p.2.received then p.2.received else 0
      | none => 0 := by
  intro entries
  induction entries with
  | nil => intro _; rfl
  | cons p0 rest ih =>
    intro hnd
    simp only [List.map_cons, List.nodup_cons] at hnd
    have hzero : p0.1 = x → netLog (recvLogs rest) x = 0 := by
      intro hkx
      refine netLog_eq_zero_of_notmem x (recvLogs rest) fun log hlog => ?_
      intro hlx
      have hmem := mem_keys_of_filterMap _ recvLogs_itemId rest log hlog
      rw [hlx] at hmem
      rw [← hkx] at hmem
      exact hnd.1 hmem
    by_cases hkx : p0.1 = x
    · rw [List.find?_cons_of_pos rest (by simp [hkx])]
      show netLog (recvLogs (p0 :: rest)) x =
        if 0 < p0.2.received then p0.2.received else 0
      by_cases hr : 0 < p0.2.received
      · rw [if_pos hr, show recvLogs (p0 :: rest) = recvLog p0 :: recvLogs rest
          from by simp [recvLogs, List.filterMap_cons, hr],
          show netLog (recvLog p0 :: recvLogs rest) x =
            (if p0.1 = x then p0.2.received else 0) + netLog (recvLogs rest) x
            from by simp [netLog, logDelta, recvLog],
          if_pos hkx, hzero hkx, add_zero]
      · rw [if_neg hr, show recvLogs (p0 :: rest) = recvLogs rest from by
          simp [recvLogs, List.filterMap_cons, hr], hzero hkx]
    · rw [List.find?_cons_of_neg rest (by simp [hkx])]
      by_cases hr : 0 < p0.2.received
      · rw [show recvLogs (p0 :: rest) = recvLog p0 :: recvLogs rest from by
          simp [recvLogs, List.filterMap_cons, hr]]
        rw [show netLog (recvLog p0 :: recvLogs rest) x =
          (if p0.1 = x then p0.2.received else 0) + netLog (recvLogs rest) x
          from by simp [netLog, logDelta, recvLog]]
        rw [if_neg hkx, zero_add]
        exact ih hnd.2
      · rw [show recvLogs (p0 :: rest) = recvLogs rest from by
          simp [recvLogs, List.filterMap_cons, hr]]
        exact ih hnd.2

theorem netLog_usageLogs (x : String) :
    ∀ (entries : List (String × LogEntry)), (entries.map (·.1)).Nodup →
    netLog (usageLogs entries) x =
      match entries.find? (fun p => p.1 == x) with
      | some p => -(if 0 < p.2.used then p.2.used else 0)
      | none => 0 := by
  intro entries
  induction entries with
  | nil => intro _; rfl
  | cons p0 rest ih =>
    intro hnd
    simp only [List.map_cons, List.nodup_cons] at hnd
    have hzero : p0.1 = x → netLog (usageLogs rest) x = 0 := by
      intro hkx
      refine netLog_eq_zero_of_notmem x (usageLogs rest) fun log hlog => ?_
      intro hlx
      have hmem := mem_keys_of_filterMap _ usageLogs_itemId rest log hlog
      rw [hlx] at hmem
      rw [← hkx] at hmem
      exact hnd.1 hmem
    by_cases hkx : p0.1 = x
    · rw [List.find?_cons_of_pos rest (by simp [hkx])]
      show netLog (usageLogs (p0 :: rest)) x =
        -(if 0 < p0.2.used then p0.2.used else 0)
      by_cases hr : 0 < p0.2.used
      · rw [if_pos hr, show usageLogs (p0 :: rest) = usageLog p0 :: usageLogs rest
          from by simp [usageLogs, List.filterMap_cons, hr],
          show netLog (usageLog p0 :: usageLogs rest) x =
            (if p0.1 = x then -p0.2.used else 0) + netLog (usageLogs rest) x
            from by simp [netLog, logDelta, usageLog],
          if_pos hkx, hzero hkx, add_zero]
      · rw [if_neg hr, neg_zero, show usageLogs (p0 :: rest) = usageLogs rest
          from by simp [usageLogs, List.filterMap_cons, hr], hzero hkx]
    · rw [List.find?_cons_of_neg rest (by simp [hkx])]
      by_cases hr : 0 < p0.2.used
      · rw [show usageLogs (p0 :: rest) = usageLog p0 :: usageLogs rest from by
          simp [usageLogs, List.filterMap_cons, hr]]
        rw [show netLog (usageLog p0 :: usageLogs rest) x =
          (if p0.1 = x then -p0.2.used else 0) + netLog (usageLogs rest) x
          from by simp [netLog, logDelta, usageLog]]
        rw [if_neg hkx, zero_add]
        exact ih hnd.2
      · rw [show usageLogs (p0 :: rest) = usageLogs rest from by
          simp [usageLogs, List.filterMap_cons, hr]]
        exact ih hnd.2

theorem netLog_append (x : String) :
    ∀ (l1 l2 : List LogReq), netLog (l1 ++ l2) x = netLog l1 x + netLog l2 x := by
  intro l1 l2
  induction l1 with
  | nil => rw [List.nil_append]; exact (zero_add _).symm
  | cons log rest ih =>
    rw [List.cons_append,
      show netLog (log :: (rest ++ l2)) x =
        (if log.itemId = x then logDelta log else 0) + netLog (rest ++ l2) x
        from rfl,
      show netLog (log :: rest) x =
        (if log.itemId = x then logDelta log else 0) + netLog rest x from rfl,
      ih, add_assoc]

theorem netLog_buildLogs (entries : List (String × LogEntry))
    (hnd : (entries.map (·.1)).Nodup) (x : String) :
    netLog (buildLogs entries) x = entryDelta entries x := by
  rw [buildLogs, netLog_append, netLog_recvLogs x entries hnd,
    netLog_usageLogs x entries hnd]
  unfold entryDelta
  cases entries.find? (fun p => p.1 == x) with
  | none => rfl
  | some p => ring

theorem validateEntries_true_spec (inv : List InventoryItem) :
    ∀ (entries : List (String × LogEntry)),
    validateEntries inv entries = true →
    ∀ p ∈ entries, ∀ item, inv.find? (fun i => i.id == p.1) = some item →
    0 ≤ p.2.received ∧ 0 ≤ p.2.used ∧
      p.2.used ≤ item.quantity + p.2.received := by
  intro entries
  induction entries with
  | nil => intro _ p hp; simp at hp
  | cons p0 rest ih =>
    intro hval p hp item hfind
    have h0 : validateEntries inv (p0 :: rest) =
        match inv.find? (fun i => i.id == p0.1) with
        | none => validateEntries inv rest
        | some item0 =>
          if p0.2.received < 0 ∨ p0.2.used < 0 then false
          else if item0.quantity + p0.2.received < p0.2.used then false
          else validateEntries inv rest := rfl
    cases hf : inv.find? (fun i => i.id == p0.1) with
    | none =>
      rw [h0, hf] at hval
      have hrest : validateEntries inv rest = true := hval
      rcases List.mem_cons.mp hp with heq | hmem
      · rw [heq] at hfind
        rw [hfind] at hf
        exact absurd hf (by simp)
      · exact ih hrest p hmem item hfind
    | some item0 =>
      rw [h0, hf] at hval
      have hval2 : (if p0.2.received < 0 ∨ p0.2.used < 0 then false
          else if item0.quantity + p0.2.received < p0.2.used then false
          else validateEntries inv rest) = true := hval
      by_cases hneg : p0.2.received < 0 ∨ p0.2.used < 0
      · rw [if_pos hneg] at hval2; exact absurd hval2 (by simp)
      · rw [if_neg hneg] at hval2
        by_cases hover : item0.quantity + p0.2.received < p0.2.used
        · rw [if_pos hover] at hval2; exact absurd hval2 (by simp)
        · rw [if_neg hover] at hval2
          rcases List.mem_cons.mp hp with heq | hmem
          · have hitem : item = item0 := by
              rw [heq] at hfind
              rw [hfind] at hf
              exact Option.some.inj hf
            rw [heq, hitem]
            push_neg at hneg
            exact ⟨by omega, by omega, by omega⟩
          · exact ih hval2 p hmem item hfind

theorem resolveFrom_self (L : String) : resolveFrom (some L) (some L) = some L := by
  unfold resolveFrom
  by_cases hL : L = "" <;> simp [hL]

theorem handleTransfer_trivial_loc (user : User) (ids : Nat → String) (k : Nat)
    (gid now : String) (items : List TransferReq) (toLocation : String)
    (L : String) (s : AppState) (hL : L = "" ∨ L = "all") :
    handleTransfer user (some L) ids k gid now items toLocation (some L) s = s := by
  simp only [handleTransfer, resolveFrom_self]
  rw [if_pos hL]

theorem submitTransfer_some (user : User) (L : String) (ids : Nat → String)
    (k : Nat) (gid now : String) (reqs : List TransferReq) (target : String)
    (s s' : AppState)
    (h : submitTransfer user L ids k gid now reqs target s = some s') :
    reqs ≠ [] ∧ target ≠ "" ∧
    validateItems (getLoc s.inventory L) reqs = true ∧
    s' = handleTransfer user (some L) ids k gid now reqs target (some L) s := by
  unfold submitTransfer at h
  by_cases he : reqs = []
  · rw [if_pos he] at h; exact absurd h (by simp)
  · rw [if_neg he] at h
    by_cases ht : target = ""
    · rw [if_pos ht] at h; exact absurd h (by simp)
    · rw [if_neg ht] at h
      by_cases hv : validateItems (getLoc s.inventory L) reqs = true
      · rw [if_pos hv] at h
        exact ⟨he, ht, hv, (Option.some.inj h).symm⟩
      · rw [if_neg hv] at h; exact absurd h (by simp)

theorem allNonneg_pairs (inv : Inventory)
    (h : ∀ p ∈ inv, ∀ i ∈ p.2, 0 ≤ i.quantity) :
    ∀ loc i, i ∈ getLoc inv loc → 0 ≤ i.quantity := by
  intro loc i hi
  unfold getLoc at hi
  cases hf : inv.find? (fun p => p.1 == loc) with
  | none => rw [hf] at hi; simp at hi
  | some p =>
    rw [hf] at hi
    exact h p (List.mem_of_find?_eq_some hf) i hi

theorem submitTransfer_preserves_nonneg (user : User) (L : String)
    (ids : Nat → String) (k : Nat) (gid now : String)
    (reqs : List TransferReq) (target : String) (s s' : AppState)
    (hndInv : (itemIds (getLoc s.inventory L)).Nodup)
    (hndReq : (reqs.map (·.itemId)).Nodup)
    (hpos : ∀ loc i, i ∈ getLoc s.inventory loc → 0 ≤ i.quantity)
    (hsub : submitTransfer user L ids k gid now reqs target s = some s') :
    ∀ loc i, i ∈ getLoc s'.inventory loc → 0 ≤ i.quantity := by
  obtain ⟨_, _, hval, hs'⟩ :=
    submitTransfer_some user L ids k gid now reqs target s s' hsub
  subst hs'
  by_cases hL : L = "" ∨ L = "all"
  · rw [handleTransfer_trivial_loc user ids k gid now reqs target L s hL]
    exact hpos
  · push_neg at hL
    rw [handleTransfer_resolved user (some L) ids k gid now reqs target
      (some L) s L (resolveFrom_self L) hL.1 hL.2]
    intro loc i hi
    cases hmb : isManagerOfSource user L with
    | false =>
      simp only [hmb, Bool.false_eq_true, if_false] at hi
      exact hpos loc i hi
    | true =>
      simp only [hmb, eq_self_iff_true, if_true] at hi
      by_cases hloc : loc = L
      · rw [hloc, getLoc_setLoc_self] at hi
        rw [transferCore_inventory_mgr .pending_target L target gid user.name
          now ids reqs k (getLoc s.inventory L) hndInv] at hi
        obtain ⟨i0, hi0, rfl⟩ := List.mem_map.mp hi
        have hq0 := hpos L i0 hi0
        have hqty : qtyAt (getLoc s.inventory L) i0.id = i0.quantity := by
          unfold qtyAt
          rw [find?_self_of_nodup hndInv hi0]
        have hle := netReq_le_of_valid (getLoc s.inventory L) reqs hval hndReq
          i0.id i0.quantity hqty hq0
        show 0 ≤ i0.quantity - netReq reqs i0.id
        omega
      · rw [getLoc_setLoc_ne _ _ _ _ hloc] at hi
        exact hpos loc i hi

theorem handleDailyLog_found_inventory (user : User) (loc newId now : String)
    (type : TransactionType) (itemId : String) (quantity : Int)
    (notes : String) (s : AppState) (item : InventoryItem)
    (hL1 : loc ≠ "") (hL2 : loc ≠ "all")
    (hfind : (getLoc s.inventory loc).find? (fun i => i.id == itemId) = some item) :
    (handleDailyLog user (some loc) newId now type itemId quantity notes
      s).inventory =
    setLoc s.inventory loc ((getLoc s.inventory loc).map (fun i =>
      if i.id == itemId then { i with quantity :=
        if type == .usage then item.quantity - quantity
        else item.quantity + quantity }
      else i)) := by
  simp only [handleDailyLog]
  rw [if_neg (not_or.mpr ⟨hL1, hL2⟩), hfind]

theorem recordUsage_some (user : User) (selLoc : Option String)
    (newId now : String) (item : InventoryItem) (q : Int) (notes : String)
    (s s' : AppState)
    (h : recordUsage user selLoc newId now item q notes s = some s') :
    0 < q ∧ q ≤ item.quantity ∧
    s' = handleDailyLog user selLoc newId now .usage item.id q notes s := by
  unfold recordUsage at h
  by_cases h0 : q ≤ 0
  · rw [if_pos h0] at h; exact absurd h (by simp)
  · rw [if_neg h0] at h
    by_cases h1 : item.quantity < q
    · rw [if_pos h1] at h; exact absurd h (by simp)
    · rw [if_neg h1] at h
      exact ⟨by omega, by omega, (Option.some.inj h).symm⟩

theorem recordUsage_preserves_nonneg (user : User) (loc newId now : String)
    (item : InventoryItem) (q : Int) (notes : String) (s s' : AppState)
    (hfind : (getLoc s.inventory loc).find? (fun i => i.id == item.id) = some item)
    (hpos : ∀ loc' i, i ∈ getLoc s.inventory loc' → 0 ≤ i.quantity)
    (hsub : recordUsage user (some loc) newId now item q notes s = some s') :
    ∀ loc' i, i ∈ getLoc s'.inventory loc' → 0 ≤ i.quantity := by
  obtain ⟨hq0, hqle, hs'⟩ :=
    recordUsage_some user (some loc) newId now item q notes s s' hsub
  subst hs'
  by_cases hL : loc = "" ∨ loc = "all"
  · rw [show handleDailyLog user (some loc) newId now .usage item.id q notes s
      = s from by simp only [handleDailyLog]; rw [if_pos hL]]
    exact hpos
  · push_neg at hL
    intro loc' i hi
    rw [show (handleDailyLog user (some loc) newId now .usage item.id q notes
        s).inventory = _ from
      handleDailyLog_found_inventory user loc newId now .usage item.id q notes
        s item hL.1 hL.2 hfind] at hi
    by_cases hloc : loc' = loc
    · rw [hloc, getLoc_setLoc_self] at hi
      obtain ⟨i0, hi0, rfl⟩ := List.mem_map.mp hi
      by_cases hid : (i0.id == item.id) = true
      · rw [if_pos hid]
        show 0 ≤ if (TransactionType.usage == TransactionType.usage) = true
          then item.quantity - q else item.quantity + q
        rw [if_pos (by decide)]
        omega
      · rw [if_neg hid]
        exact hpos loc i0 hi0
    · rw [getLoc_setLoc_ne _ _ _ _ hloc] at hi
      exact hpos loc' i hi

theorem submitAll_some (user : User) (L : String) (ids : Nat → String)
    (k : Nat) (now : String) (entries : List (String × LogEntry))
    (s s' : AppState)
    (h : submitAll user L ids k now entries s = some s') :
    validateEntries (getLoc s.inventory L) entries = true ∧
    buildLogs entries ≠ [] ∧
    s' = handleBulkLog user (some L) ids k now (buildLogs entries) s := by
  unfold submitAll at h
  by_cases hv : validateEntries (getLoc s.inventory L) entries = true
  · rw [if_pos hv] at h
    by_cases hes : buildLogs entries = []
    · rw [if_pos hes] at h; exact absurd h (by simp)
    · rw [if_neg hes] at h
      exact ⟨hv, hes, (Option.some.inj h).symm⟩
  · rw [if_neg hv] at h; exact absurd h (by simp)

theorem submitAll_preserves_nonneg (user : User) (L : String)
    (ids : Nat → String) (k : Nat) (now : String)
    (entries : List (String × LogEntry)) (s s' : AppState)
    (hndInv : (itemIds (getLoc s.inventory L)).Nodup)
    (hndKeys : (entries.map (·.1)).Nodup)
    (hpos : ∀ loc i, i ∈ getLoc s.inventory loc → 0 ≤ i.quantity)
    (hsub : submitAll user L ids k now entries s = some s') :
    ∀ loc i, i ∈ getLoc s'.inventory loc → 0 ≤ i.quantity := by
  obtain ⟨hval, _, hs'⟩ := submitAll_some user L ids k now entries s s' hsub
  subst hs'
  by_cases hL : L = "" ∨ L = "all"
  · rw [show handleBulkLog user (some L) ids k now (buildLogs entries) s = s
      from by simp only [handleBulkLog]; rw [if_pos hL]]
    exact hpos
  · push_neg at hL
    intro loc i hi
    rw [show handleBulkLog user (some L) ids k now (buildLogs entries) s =
      { inventory := setLoc s.inventory L (applyBulkLogs user.name now L ids k
          (buildLogs entries) (getLoc s.inventory L)).1,
        transactions := (applyBulkLogs user.name now L ids k
          (buildLogs entries) (getLoc s.inventory L)).2 ++ s.transactions }
      from by simp only [handleBulkLog]; rw [if_neg (not_or.mpr ⟨hL.1, hL.2⟩)]]
      at hi
    by_cases hloc : loc = L
    · rw [hloc, getLoc_setLoc_self,
        applyBulkLogs_inventory user.name now L ids (buildLogs entries) k
          (getLoc s.inventory L) hndInv] at hi
      obtain ⟨i0, hi0, rfl⟩ := List.mem_map.mp hi
      have hq0 := hpos L i0 hi0
      show 0 ≤ i0.quantity + netLog (buildLogs entries) i0.id
      rw [netLog_buildLogs entries hndKeys i0.id]
      cases hfe : entries.find? (fun p => p.1 == i0.id) with
      | none =>
        rw [show entryDelta entries i0.id = 0 from by
          unfold entryDelta; rw [hfe]]
        omega
      | some p =>
        rw [show entryDelta entries i0.id =
          (if 0 < p.2.received then p.2.received else 0) -
            (if 0 < p.2.used then p.2.used else 0) from by
          unfold entryDelta; rw [hfe]]
        have hp : p ∈ entries := List.mem_of_find?_eq_some hfe
        have hkey : p.1 = i0.id := by
          have := List.find?_some hfe
          simpa using this
        have hbounds := validateEntries_true_spec (getLoc s.inventory L)
          entries hval p hp i0 (by rw [hkey]; exact find?_self_of_nodup hndInv hi0)
        by_cases h1 : 0 < p.2.received <;> by_cases h2 : 0 < p.2.used <;>
          simp only [h1, h2, if_true, if_false] <;> omega
    · rw [getLoc_setLoc_ne _ _ _ _ hloc] at hi
      exact hpos loc i hi

theorem recordUsage_insufficient_refused (user : User) (selLoc : Option String)
    (newId now : String) (item : InventoryItem) (q : Int) (notes : String)
    (s : AppState) (h : item.quantity < q) :
    recordUsage user selLoc newId now item q notes s = none := by
  unfold recordUsage
  by_cases h0 : q ≤ 0
  · rw [if_pos h0]
  · rw [if_neg h0, if_pos h]

/-- C2 counterexample: `handleConfirmSourceTransfer` has no insufficient-stock
guard, so confirming the outbound leg of a 5 L pending-source transfer when
the source only holds 3 L drives the item's quantity to -2. -/
theorem C2_confirm_outbound_goes_negative :
    txOil.status = .pending_source ∧
    (∀ i ∈ getLoc sC2.inventory "b1", 0 ≤ i.quantity) ∧
    (getLoc (handleConfirmSourceTransfer txOil sC2).inventory "b1").map
      (·.quantity) = [-2] ∧
    ∃ i ∈ getLoc (handleConfirmSourceTransfer txOil sC2).inventory "b1",
      i.quantity < 0 := by
  refine ⟨rfl, by decide, by decide, by decide⟩

/-- C2 amended: the three guarded deducting operations — transfer initiation
through the modal (over request lists with pairwise-distinct item ids),
single usage through the usage modal, and the bulk daily log — never drive
any quantity negative, and a usage exceeding the displayed stock is refused
before any mutation.  (The fourth deducting operation, confirm-outbound,
deducts unconditionally; see the counterexample.) -/
theorem C2_guarded_deductions_nonneg :
    (∀ (user : User) (L : String) (ids : Nat → String) (k : Nat)
      (gid now : String) (reqs : List TransferReq) (target : String)
      (s s' : AppState),
      (itemIds (getLoc s.inventory L)).Nodup →
      (reqs.map (·.itemId)).Nodup →
      (∀ loc i, i ∈ getLoc s.inventory loc → 0 ≤ i.quantity) →
      submitTransfer user L ids k gid now reqs target s = some s' →
      ∀ loc i, i ∈ getLoc s'.inventory loc → 0 ≤ i.quantity) ∧
    (∀ (user : User) (loc newId now : String) (item : InventoryItem)
      (q : Int) (notes : String) (s s' : AppState),
      (getLoc s.inventory loc).find? (fun i => i.id == item.id) = some item →
      (∀ loc' i, i ∈ getLoc s.inventory loc' → 0 ≤ i.quantity) →
      recordUsage user (some loc) newId now item q notes s = some s' →
      ∀ loc' i, i ∈ getLoc s'.inventory loc' → 0 ≤ i.quantity) ∧
    (∀ (user : User) (L : String) (ids : Nat → String) (k : Nat)
      (now : String) (entries : List (String × LogEntry)) (s s' : AppState),
      (itemIds (getLoc s.inventory L)).Nodup →
      (entries.map (·.1)).Nodup →
      (∀ loc i, i ∈ getLoc s.inventory loc → 0 ≤ i.quantity) →
      submitAll user L ids k now entries s = some s' →
      ∀ loc i, i ∈ getLoc s'.inventory loc → 0 ≤ i.quantity) ∧
    (∀ (user : User) (selLoc : Option String) (newId now : String)
      (item : InventoryItem) (q : Int) (notes : String) (s : AppState),
      item.quantity < q →
      recordUsage user selLoc newId now item q notes s = none) :=
  ⟨submitTransfer_preserves_nonneg, recordUsage_preserves_nonneg,
   submitAll_preserves_nonneg, recordUsage_insufficient_refused⟩

theorem C2_guarded_deductions_nonneg_witness :
    (itemA.quantity < 15) ∧
    recordUsage userEmp (some "mammal") "n1" "D1" itemA 15 "" sampleState =
      none ∧
    (∀ loc i, i ∈ getLoc (handleTransfer userMgr (some "b1") sampleIds 0 "G1"
      "D1" [⟨"itemA", 4⟩] "warehouse" (some "b1") sampleState).inventory loc →
      0 ≤ i.quantity) := by
  refine ⟨by decide,
    C2_guarded_deductions_nonneg.2.2.2 userEmp (some "mammal") "n1" "D1"
      itemA 15 "" sampleState (by decide), ?_⟩
  exact C2_guarded_deductions_nonneg.1 userMgr "b1" sampleIds 0 "G1" "D1"
    [⟨"itemA", 4⟩] "warehouse" sampleState _ (by decide) (by decide)
    (allNonneg_pairs sampleState.inventory (by decide)) rfl

/-! ## Claim C7 -/

/-- C7: `confirmOutbound` records the transition to `pending_target` in every
case; when a bilingual-name match exists at the source it deducts
`transaction.quantity` there, and when none exists it skips the deduction but
still advances the status (silent failure). -/
theorem C7_confirm_outbound (tx : Transaction) (s : AppState) (L : String)
    (hfrom : tx.fromLocation = some L) (hst : tx.status = .pending_source) :
    ((handleConfirmSourceTransfer tx s).transactions =
      setStatus tx.id .pending_target s.transactions) ∧
    (∀ sourceItem,
      (getLoc s.inventory L).find? (nameMatch tx) = some sourceItem →
      getLoc (handleConfirmSourceTransfer tx s).inventory L =
        (getLoc s.inventory L).map (fun i =>
          if i.id == sourceItem.id
          then { i with quantity := i.quantity - tx.quantity } else i) ∧
      ∀ L', L' ≠ L →
        getLoc (handleConfirmSourceTransfer tx s).inventory L' =
          getLoc s.inventory L') ∧
    ((getLoc s.inventory L).find? (nameMatch tx) = none →
      (handleConfirmSourceTransfer tx s).inventory = s.inventory) := by
  refine ⟨?_, ?_, ?_⟩
  · cases hf : (getLoc s.inventory L).find? (nameMatch tx) with
    | none =>
      rw [handleConfirmSourceTransfer_notfound tx s L hfrom hf]
    | some sourceItem =>
      rw [handleConfirmSourceTransfer_found tx s L sourceItem hfrom hf]
  · intro sourceItem hf
    rw [handleConfirmSourceTransfer_found tx s L sourceItem hfrom hf]
    exact ⟨getLoc_setLoc_self _ _ _, fun L' hL' => getLoc_setLoc_ne _ _ _ _ hL'⟩
  · intro hf
    rw [handleConfirmSourceTransfer_notfound tx s L hfrom hf]

theorem C7_confirm_outbound_witness :
    (txOil.fromLocation = some "b1") ∧ (txOil.status = .pending_source) ∧
    ((handleConfirmSourceTransfer txOil sC2).transactions =
      setStatus txOil.id .pending_target sC2.transactions) ∧
    ((getLoc sC2.inventory "b1").find? (nameMatch txOil) = some itemOil) ∧
    (getLoc (handleConfirmSourceTransfer txOil sC2).inventory "b1" =
      (getLoc sC2.inventory "b1").map (fun i =>
        if i.id == itemOil.id
        then { i with quantity := i.quantity - txOil.quantity } else i)) := by
  have h := C7_confirm_outbound txOil sC2 "b1" rfl rfl
  exact ⟨rfl, rfl, h.1, by decide, (h.2.1 itemOil (by decide)).1⟩

/-! ## Claim C6 -/

/-- C6: `receiveTransfer` on a pending-target transaction marks it
`completed`; it credits `transaction.quantity` to the bilingual-name match at
the destination, or, when no name matches there, appends a fresh item with
category `"Received"`, `minThreshold` 0, and the transferred quantity and
unit. -/
theorem C6_receive_transfer (newId now : String) (tx : Transaction)
    (s : AppState) (L : String)
    (hto : tx.toLocation = some L) (hst : tx.status = .pending_target) :
    ((handleReceiveTransfer newId now tx s).transactions =
      setStatus tx.id .completed s.transactions) ∧
    (∀ destItem, (getLoc s.inventory L).find? (nameMatch tx) = some destItem →
      getLoc (handleReceiveTransfer newId now tx s).inventory L =
        (getLoc s.inventory L).map (fun i =>
          if i.id == destItem.id
          then { i with quantity := i.quantity + tx.quantity } else i) ∧
      ∀ L', L' ≠ L →
        getLoc (handleReceiveTransfer newId now tx s).inventory L' =
          getLoc s.inventory L') ∧
    ((getLoc s.inventory L).find? (nameMatch tx) = none →
      getLoc (handleReceiveTransfer newId now tx s).inventory L =
        getLoc s.inventory L ++
          [{ id := newId, nameEn := tx.itemNameEn, nameAr := tx.itemNameAr,
             category := "Received", quantity := tx.quantity, unit := tx.unit,
             minThreshold := 0, lastUpdated := now }] ∧
      ∀ L', L' ≠ L →
        getLoc (handleReceiveTransfer newId now tx s).inventory L' =
          getLoc s.inventory L') := by
  refine ⟨?_, ?_, ?_⟩
  · cases hf : (getLoc s.inventory L).find? (nameMatch tx) with
    | none => rw [handleReceiveTransfer_notfound newId now tx s L hto hf]
    | some destItem =>
      rw [handleReceiveTransfer_found newId now tx s L destItem hto hf]
  · intro destItem hf
    rw [handleReceiveTransfer_found newId now tx s L destItem hto hf]
    exact ⟨getLoc_setLoc_self _ _ _, fun L' hL' => getLoc_setLoc_ne _ _ _ _ hL'⟩
  · intro hf
    rw [handleReceiveTransfer_notfound newId now tx s L hto hf]
    exact ⟨getLoc_setLoc_self _ _ _, fun L' hL' => getLoc_setLoc_ne _ _ _ _ hL'⟩

theorem C6_receive_transfer_witness :
    (txIn.toLocation = some "warehouse") ∧ (txIn.status = .pending_target) ∧
    ((handleReceiveTransfer "n1" "D2" txIn sIn).transactions =
      setStatus txIn.id .completed sIn.transactions) ∧
    ((getLoc sIn.inventory "warehouse").find? (nameMatch txIn) = some itemW) ∧
    (getLoc (handleReceiveTransfer "n1" "D2" txIn sIn).inventory "warehouse" =
      (getLoc sIn.inventory "warehouse").map (fun i =>
        if i.id == itemW.id
        then { i with quantity := i.quantity + txIn.quantity } else i)) := by
  have h := C6_receive_transfer "n1" "D2" txIn sIn "warehouse" rfl rfl
  exact ⟨rfl, rfl, h.1, by decide, (h.2.1 itemW (by decide)).1⟩

/-! ## Claim C10 -/

/-- C10: `receiveTransfer` has no status precondition: whatever the
transaction's current status, it overwrites the status to `completed` and
credits the destination, so applying it twice to the same transaction
credits the matched destination item by twice the quantity. -/
theorem C10_receive_unguarded (newId1 newId2 now1 now2 : String)
    (tx : Transaction) (s : AppState) (L : String) (destItem : InventoryItem)
    (hto : tx.toLocation = some L)
    (hfind : (getLoc s.inventory L).find? (nameMatch tx) = some destItem) :
    ((handleReceiveTransfer newId1 now1 tx s).transactions =
      setStatus tx.id .completed s.transactions) ∧
    (getLoc (handleReceiveTransfer newId2 now2 tx
        (handleReceiveTransfer newId1 now1 tx s)).inventory L =
      (getLoc s.inventory L).map (fun i =>
        if i.id == destItem.id
        then { i with quantity := i.quantity + tx.quantity + tx.quantity }
        else i)) := by
  have h1 := handleReceiveTransfer_found newId1 now1 tx s L destItem hto hfind
  refine ⟨by rw [h1], ?_⟩
  have hL1 : getLoc (handleReceiveTransfer newId1 now1 tx s).inventory L =
      (getLoc s.inventory L).map (fun i =>
        if i.id == destItem.id
        then { i with quantity := i.quantity + tx.quantity } else i) := by
    rw [h1]; exact getLoc_setLoc_self _ _ _
  have hkey : (getLoc (handleReceiveTransfer newId1 now1 tx s).inventory L).map
      nameKey = (getLoc s.inventory L).map nameKey := by
    rw [hL1]
    exact map_ite_quantity_nameKey _ _ _
  have hproj := find?_nameMatch_nameKey tx hkey
  rw [hfind] at hproj
  obtain ⟨destItem2, hfind2, hk2⟩ := Option.map_eq_some'.mp hproj
  have hid2 : destItem2.id = destItem.id := by
    have := hk2
    simp only [nameKey, Prod.mk.injEq] at this
    exact this.1
  have h2 := handleReceiveTransfer_found newId2 now2 tx
    (handleReceiveTransfer newId1 now1 tx s) L destItem2 hto hfind2
  rw [h2, getLoc_setLoc_self, hL1, List.map_map]
  refine List.map_congr_left fun i hi => ?_
  rw [Function.comp_apply]
  by_cases hid : i.id = destItem.id
  · have hinner : (if (i.id == destItem.id) = true
        then { i with quantity := i.quantity + tx.quantity } else i) =
        { i with quantity := i.quantity + tx.quantity } := if_pos (by simp [hid])
    rw [hinner]
    rw [if_pos (show (({ i with quantity := i.quantity + tx.quantity } :
        InventoryItem).id == destItem2.id) = true from by
        simp only [beq_iff_eq]
        show i.id = destItem2.id
        rw [hid, hid2])]
    show ({ i with quantity := i.quantity + tx.quantity + tx.quantity } :
      InventoryItem) = _
    rw [if_pos (by simp [hid])]
  · have hinner : (if (i.id == destItem.id) = true
        then { i with quantity := i.quantity + tx.quantity } else i) = i :=
      if_neg (by simp [hid])
    rw [hinner]
    rw [if_neg (show ¬ (i.id == destItem2.id) = true from by
      simp only [beq_iff_eq]; rw [hid2]; exact hid)]
    rw [if_neg (by simp [hid])]

theorem C10_receive_unguarded_witness :
    (txIn.toLocation = some "warehouse") ∧
    ((getLoc sIn.inventory "warehouse").find? (nameMatch txIn) = some itemW) ∧
    (getLoc (handleReceiveTransfer "n2" "D3" txIn
        (handleReceiveTransfer "n1" "D2" txIn sIn)).inventory "warehouse" =
      (getLoc sIn.inventory "warehouse").map (fun i =>
        if i.id == itemW.id
        then { i with quantity := i.quantity + txIn.quantity + txIn.quantity }
        else i)) ∧
    ((getLoc (handleReceiveTransfer "n2" "D3" txIn
        (handleReceiveTransfer "n1" "D2" txIn sIn)).inventory "warehouse").map
      (·.quantity) = [16]) := by
  have h := C10_receive_unguarded "n1" "n2" "D2" "D3" txIn sIn "warehouse"
    itemW rfl (by decide)
  exact ⟨rfl, by decide, h.2, by decide⟩

/-! ## Claim C3 -/

/-- C3: a manager-initiated single-item transfer (created `pending_target`,
source deducted) followed by rejecting that very transaction restores every
location's inventory to exactly its pre-transfer contents and leaves the log
as before except that the created transaction is `rejected` with the given
reason; rejecting any still-`pending_source` transaction changes no inventory
and only flips the status and records the reason. -/
theorem C3_reject_reversal :
    (∀ (user : User) (fl toLoc gid now now2 newId2 reason : String)
      (ids : Nat → String) (k : Nat) (q : Int) (X : InventoryItem)
      (s : AppState),
      isManagerOfSource user fl = true →
      fl ≠ "" → fl ≠ "all" →
      X ∈ getLoc s.inventory fl →
      (itemIds (getLoc s.inventory fl)).Nodup →
      (getLoc s.inventory fl).find? (fun i =>
        i.nameEn == X.nameEn || i.nameAr == X.nameAr) = some X →
      (∀ t ∈ s.transactions, t.id ≠ ids k) →
      ∀ tx, (handleTransfer user (some fl) ids k gid now [⟨X.id, q⟩] toLoc
          (some fl) s).transactions = tx :: s.transactions →
        (∀ L', getLoc (handleRejectTransfer newId2 now2 tx reason
          (handleTransfer user (some fl) ids k gid now [⟨X.id, q⟩] toLoc
            (some fl) s)).inventory L' = getLoc s.inventory L') ∧
        (handleRejectTransfer newId2 now2 tx reason
          (handleTransfer user (some fl) ids k gid now [⟨X.id, q⟩] toLoc
            (some fl) s)).transactions =
          { tx with status := .rejected, rejectionReason := some reason } ::
            s.transactions) ∧
    (∀ (newId now reason : String) (tx : Transaction) (s : AppState),
      tx.status = .pending_source →
      (handleRejectTransfer newId now tx reason s).inventory = s.inventory ∧
      (handleRejectTransfer newId now tx reason s).transactions =
        s.transactions.map (fun t => if t.id == tx.id
          then { t with status := .rejected, rejectionReason := some reason }
          else t)) := by
  constructor
  · intro user fl toLoc gid now now2 newId2 reason ids k q X s hmgr h1 h2 hX
      hnd hfirstName hfresh tx htx
    have hfirstId : (getLoc s.inventory fl).find? (fun i => i.id == X.id) =
        some X := find?_self_of_nodup hnd hX
    have hcore : transferCore true .pending_target fl toLoc gid user.name now
        ids k [⟨X.id, q⟩] (getLoc s.inventory fl) =
        (updateFirst (fun i => i.id == X.id)
          (fun i => { i with quantity := i.quantity - q })
          (getLoc s.inventory fl),
         [{ id := ids k, transferGroupId := some gid, date := now,
            type := .transfer, status := .pending_target,
            fromLocation := some fl, toLocation := some toLoc,
            itemNameEn := X.nameEn, itemNameAr := X.nameAr, quantity := q,
            unit := X.unit, performedBy := user.name }]) := by
      simp [transferCore, hfirstId]
    have hs1 := handleTransfer_resolved user (some fl) ids k gid now
      [⟨X.id, q⟩] toLoc (some fl) s fl (resolveFrom_self fl) h1 h2
    rw [transferTxsOf] at hs1
    rw [hmgr] at hs1
    simp only [eq_self_iff_true, if_true] at hs1
    rw [hcore] at hs1
    rw [hs1] at htx
    have htxeq : tx =
        { id := ids k, transferGroupId := some gid, date := now,
          type := .transfer, status := .pending_target,
          fromLocation := some fl, toLocation := some toLoc,
          itemNameEn := X.nameEn, itemNameAr := X.nameAr, quantity := q,
          unit := X.unit, performedBy := user.name } := by
      simpa using htx.symm
    subst htxeq
    have hgls1 : getLoc (handleTransfer user (some fl) ids k gid now
        [⟨X.id, q⟩] toLoc (some fl) s).inventory fl =
        updateFirst (fun i => i.id == X.id)
          (fun i => { i with quantity := i.quantity - q })
          (getLoc s.inventory fl) := by
      rw [hs1]
      exact getLoc_setLoc_self _ _ _
    have hkey2 : (updateFirst (fun i => i.id == X.id)
        (fun i => { i with quantity := i.quantity - q })
        (getLoc s.inventory fl)).map nameKey =
        (getLoc s.inventory fl).map nameKey :=
      updateFirst_quantity_nameKey _ _ _
    have hfn : (getLoc s.inventory fl).find? (nameMatch
        { id := ids k, transferGroupId := some gid, date := now,
          type := .transfer, status := .pending_target,
          fromLocation := some fl, toLocation := some toLoc,
          itemNameEn := X.nameEn, itemNameAr := X.nameAr, quantity := q,
          unit := X.unit, performedBy := user.name }) = some X := hfirstName
    have hproj := find?_nameMatch_nameKey
      { id := ids k, transferGroupId := some gid, date := now,
        type := .transfer, status := .pending_target,
        fromLocation := some fl, toLocation := some toLoc,
        itemNameEn := X.nameEn, itemNameAr := X.nameAr, quantity := q,
        unit := X.unit, performedBy := user.name } hkey2
    rw [hfn] at hproj
    obtain ⟨X2, hfind2, hkX⟩ := Option.map_eq_some'.mp hproj
    have hXid : X2.id = X.id := by
      have := hkX
      simp only [nameKey, Prod.mk.injEq] at this
      exact this.1
    have hfind2' : (getLoc (handleTransfer user (some fl) ids k gid now
        [⟨X.id, q⟩] toLoc (some fl) s).inventory fl).find? (nameMatch
        { id := ids k, transferGroupId := some gid, date := now,
          type := .transfer, status := .pending_target,
          fromLocation := some fl, toLocation := some toLoc,
          itemNameEn := X.nameEn, itemNameAr := X.nameAr, quantity := q,
          unit := X.unit, performedBy := user.name }) = some X2 := by
      rw [hgls1]
      exact hfind2
    have hrej := handleRejectTransfer_deducted_found newId2 now2
      { id := ids k, transferGroupId := some gid, date := now,
        type := .transfer, status := .pending_target,
        fromLocation := some fl, toLocation := some toLoc,
        itemNameEn := X.nameEn, itemNameAr := X.nameAr, quantity := q,
        unit := X.unit, performedBy := user.name } reason
      (handleTransfer user (some fl) ids k gid now [⟨X.id, q⟩] toLoc
        (some fl) s) fl X2 rfl rfl hfind2'
    constructor
    · intro L'
      by_cases hL' : L' = fl
      · rw [hL', hrej, getLoc_setLoc_self, hgls1,
          updateFirst_eq_map_of_nodup X.id _ hnd, List.map_map]
        conv_rhs => rw [← List.map_id (getLoc s.inventory fl)]
        refine List.map_congr_left fun i hi => ?_
        rw [Function.comp_apply]
        by_cases hid : i.id = X.id
        · have hinner : (if (i.id == X.id) = true
              then { i with quantity := i.quantity - q } else i) =
              { i with quantity := i.quantity - q } := if_pos (by simp [hid])
          rw [hinner,
            if_pos (show (({ i with quantity := i.quantity - q } :
              InventoryItem).id == X2.id) = true from by
              simp only [beq_iff_eq]
              show i.id = X2.id
              rw [hid, hXid])]
          show ({ i with quantity := i.quantity - q + q } : InventoryItem) = i
          rw [sub_add_cancel]
        · have hinner : (if (i.id == X.id) = true
              then { i with quantity := i.quantity - q } else i) = i :=
            if_neg (by simp [hid])
          rw [hinner,
            if_neg (show ¬ (i.id == X2.id) = true from by
              simp only [beq_iff_eq]
              rw [hXid]
              exact hid)]
          rfl
      · rw [hrej, getLoc_setLoc_ne _ _ _ _ hL', hs1]
        exact getLoc_setLoc_ne _ _ _ _ hL'
    · rw [hrej]
      rw [show (handleTransfer user (some fl) ids k gid now [⟨X.id, q⟩] toLoc
          (some fl) s).transactions =
        { id := ids k, transferGroupId := some gid, date := now,
          type := .transfer, status := .pending_target,
          fromLocation := some fl, toLocation := some toLoc,
          itemNameEn := X.nameEn, itemNameAr := X.nameAr, quantity := q,
          unit := X.unit, performedBy := user.name } :: s.transactions from by
          rw [hs1]
          rfl]
      rw [List.map_cons, if_pos (by simp)]
      have hrest : s.transactions.map (fun t => if t.id == ids k
          then { t with status := TransactionStatus.rejected, rejectionReason := some reason }
          else t) = s.transactions := by
        conv_rhs => rw [← List.map_id s.transactions]
        refine List.map_congr_left fun t ht => ?_
        rw [if_neg (by simp [hfresh t ht])]
        rfl
      rw [hrest]
  · intro newId now reason tx s hst
    rw [handleRejectTransfer_not_deducted newId now tx reason s
      (by rw [hst]; exact fun h => TransactionStatus.noConfusion h)]
    exact ⟨rfl, rfl⟩

theorem C3_reject_reversal_witness :
    (isManagerOfSource userMgr "b1" = true) ∧
    ((handleTransfer userMgr (some "b1") sampleIds 0 "G1" "D1"
        [⟨"itemA", 4⟩] "warehouse" (some "b1") sampleState).transactions =
      txC3 :: sampleState.transactions) ∧
    (getLoc (handleRejectTransfer "n2" "D2" txC3 "damaged"
        (handleTransfer userMgr (some "b1") sampleIds 0 "G1" "D1"
          [⟨"itemA", 4⟩] "warehouse" (some "b1") sampleState)).inventory "b1" =
      getLoc sampleState.inventory "b1") ∧
    ((handleRejectTransfer "n2" "D2" txC3 "damaged"
        (handleTransfer userMgr (some "b1") sampleIds 0 "G1" "D1"
          [⟨"itemA", 4⟩] "warehouse" (some "b1") sampleState)).transactions =
      { txC3 with status := .rejected, rejectionReason := some "damaged" } ::
        sampleState.transactions) := by
  have h := C3_reject_reversal.1 userMgr "b1" "warehouse" "G1" "D1" "D2" "n2"
    "damaged" sampleIds 0 4 itemA sampleState (by decide) (by decide)
    (by decide) (by decide) (by decide) (by decide)
    (by intro t ht; simp [sampleState] at ht) txC3 (by decide)
  exact ⟨by decide, by decide, h.1 "b1", h.2⟩

/-! ## Claim C5 -/

theorem incomingGroup_mem (s : AppState) (selLoc : Option String)
    (gid : String) : ∀ tx ∈ incomingGroup s selLoc gid,
    tx.toLocation = selLoc ∧ tx.status = .pending_target ∧
      tx ∈ s.transactions := by
  intro tx htx
  unfold incomingGroup at htx
  have h1 := List.mem_filter.mp htx
  have h2 := List.mem_filter.mp h1.1
  have h3 := h2.2
  simp only [Bool.and_eq_true, beq_iff_eq] at h3
  exact ⟨h3.1, h3.2, h2.1⟩

/-- C5: one submission of `n` distinct present items yields exactly `n`
transfer transactions sharing the submission's group id and carrying each
resolved item's bilingual name and unit; bulk-accepting that group id runs
`receiveTransfer` over every transaction of the group, completing all of them
and crediting the destination once per transaction. -/
theorem C5_group_integrity :
    (∀ (user : User) (fl toLoc gid now : String) (ids : Nat → String)
      (k : Nat) (reqs : List TransferReq) (s : AppState),
      (reqs.map (·.itemId)).Nodup →
      (∀ req ∈ reqs, req.itemId ∈ itemIds (getLoc s.inventory fl)) →
      ((transferTxsOf user fl toLoc gid now ids k reqs
        (getLoc s.inventory fl)).length = reqs.length) ∧
      (∀ tx ∈ transferTxsOf user fl toLoc gid now ids k reqs
        (getLoc s.inventory fl),
        tx.type = .transfer ∧ tx.transferGroupId = some gid) ∧
      List.Forall₂ (fun (req : TransferReq) (tx : Transaction) =>
        tx.quantity = req.quantity ∧ ∃ src,
          (getLoc s.inventory fl).find? (fun i => i.id == req.itemId) =
            some src ∧
          tx.itemNameEn = src.nameEn ∧ tx.itemNameAr = src.nameAr ∧
          tx.unit = src.unit)
        reqs (transferTxsOf user fl toLoc gid now ids k reqs
          (getLoc s.inventory fl))) ∧
    (∀ (L gid now : String) (ids : Nat → String) (k : Nat) (s : AppState),
      (∀ tx ∈ incomingGroup s (some L) gid,
        ((getLoc s.inventory L).find? (nameMatch tx)).isSome) →
      (∀ tx ∈ incomingGroup s (some L) gid,
        tx.toLocation = some L ∧ tx.status = .pending_target) ∧
      ((handleBulkAccept (some L) ids k now gid s).transactions =
        s.transactions.map (fun t =>
          if (incomingGroup s (some L) gid).any (fun g => t.id == g.id)
          then { t with status := .completed } else t)) ∧
      (∀ t ∈ (handleBulkAccept (some L) ids k now gid s).transactions,
        (incomingGroup s (some L) gid).any (fun g => t.id == g.id) = true →
        t.status = .completed) ∧
      (getLoc (handleBulkAccept (some L) ids k now gid s).inventory L =
        (getLoc s.inventory L).map (fun i =>
          { i with quantity := i.quantity +
              creditOf (getLoc s.inventory L) (incomingGroup s (some L) gid) i.id })) ∧
      (∀ L', L' ≠ L →
        getLoc (handleBulkAccept (some L) ids k now gid s).inventory L' =
          getLoc s.inventory L')) := by
  constructor
  · intro user fl toLoc gid now ids k reqs s _ hfound
    refine ⟨?_, ?_, ?_⟩
    · exact transferCore_txs_length (isManagerOfSource user fl)
        (if isManagerOfSource user fl then .pending_target else .pending_source)
        fl toLoc gid user.name now ids reqs k (getLoc s.inventory fl) hfound
    · intro tx htx
      have h := transferCore_txs_mem (isManagerOfSource user fl)
        (if isManagerOfSource user fl then .pending_target else .pending_source)
        fl toLoc gid user.name now ids reqs k (getLoc s.inventory fl) tx htx
      exact ⟨h.2.1, h.1⟩
    · exact transferCore_txs_names (isManagerOfSource user fl)
        (if isManagerOfSource user fl then .pending_target else .pending_source)
        fl toLoc gid user.name now ids reqs k (getLoc s.inventory fl) hfound
  · intro L gid now ids k s hmatch
    have hgrp := incomingGroup_mem s (some L) gid
    have hloc : ∀ tx ∈ incomingGroup s (some L) gid, tx.toLocation = some L :=
      fun tx htx => (hgrp tx htx).1
    obtain ⟨ha, hb, hc⟩ := receiveAll_spec ids now L
      (incomingGroup s (some L) gid) k s hloc hmatch
    refine ⟨fun tx htx => ⟨(hgrp tx htx).1, (hgrp tx htx).2.1⟩, hc, ?_, ha, hb⟩
    intro t ht hcond
    rw [show (handleBulkAccept (some L) ids k now gid s).transactions =
      (receiveAll ids now k (incomingGroup s (some L) gid) s).transactions
      from rfl, hc] at ht
    obtain ⟨t0, ht0, rfl⟩ := List.mem_map.mp ht
    by_cases hc0 : ((incomingGroup s (some L) gid).any
        (fun g => t0.id == g.id)) = true
    · rw [if_pos hc0]
    · rw [if_neg hc0] at hcond ⊢
      exact absurd hcond hc0

theorem C5_group_integrity_witness :
    ((transferTxsOf userMgr "b1" "warehouse" "G1" "D1" sampleIds 0
      [⟨"itemA", 2⟩, ⟨"itemB", 3⟩] (getLoc sampleState.inventory "b1")).length
      = 2) ∧
    (∀ tx ∈ transferTxsOf userMgr "b1" "warehouse" "G1" "D1" sampleIds 0
      [⟨"itemA", 2⟩, ⟨"itemB", 3⟩] (getLoc sampleState.inventory "b1"),
      tx.type = .transfer ∧ tx.transferGroupId = some "G1") ∧
    (getLoc (handleBulkAccept (some "warehouse") sampleIds 0 "D2" "G5"
        sIn).inventory "warehouse" =
      (getLoc sIn.inventory "warehouse").map (fun i =>
        { i with quantity := i.quantity +
            creditOf (getLoc sIn.inventory "warehouse") (incomingGroup sIn (some "warehouse") "G5") i.id })) ∧
    ((getLoc (handleBulkAccept (some "warehouse") sampleIds 0 "D2" "G5"
        sIn).inventory "warehouse").map (·.quantity) = [10]) ∧
    ((handleBulkAccept (some "warehouse") sampleIds 0 "D2" "G5"
        sIn).transactions.map (·.status) = [TransactionStatus.completed]) := by
  have hA := C5_group_integrity.1 userMgr "b1" "warehouse" "G1" "D1" sampleIds
    0 [⟨"itemA", 2⟩, ⟨"itemB", 3⟩] sampleState (by decide) (by decide)
  have hB := C5_group_integrity.2 "warehouse" "G5" "D2" sampleIds 0 sIn
    (by decide)
  exact ⟨hA.1, hA.2.1, hB.2.2.2.1, by decide, by decide⟩

/-! ## Claim C8 -/

theorem validateEntries_eq_false_of_invalid (inv : List InventoryItem) :
    ∀ (entries : List (String × LogEntry)),
    (∃ p ∈ entries, ∃ item, inv.find? (fun i => i.id == p.1) = some item ∧
      (p.2.received < 0 ∨ p.2.used < 0 ∨
        item.quantity + p.2.received < p.2.used)) →
    validateEntries inv entries = false := by
  intro entries
  induction entries with
  | nil => rintro ⟨p, hp, _⟩; simp at hp
  | cons p0 rest ih =>
    rintro ⟨p, hp, item, hfind, hbad⟩
    have h0 : validateEntries inv (p0 :: rest) =
        match inv.find? (fun i => i.id == p0.1) with
        | none => validateEntries inv rest
        | some item0 =>
          if p0.2.received < 0 ∨ p0.2.used < 0 then false
          else if item0.quantity + p0.2.received < p0.2.used then false
          else validateEntries inv rest := rfl
    cases hf : inv.find? (fun i => i.id == p0.1) with
    | none =>
      rw [h0, hf]
      rcases List.mem_cons.mp hp with heq | hmem
      · rw [heq] at hfind
        rw [hfind] at hf
        exact absurd hf (by simp)
      · exact ih ⟨p, hmem, item, hfind, hbad⟩
    | some item0 =>
      rw [h0, hf]
      show (if p0.2.received < 0 ∨ p0.2.used < 0 then false
        else if item0.quantity + p0.2.received < p0.2.used then false
        else validateEntries inv rest) = false
      by_cases hneg : p0.2.received < 0 ∨ p0.2.used < 0
      · rw [if_pos hneg]
      · rw [if_neg hneg]
        by_cases hover : item0.quantity + p0.2.received < p0.2.used
        · rw [if_pos hover]
        · rw [if_neg hover]
          rcases List.mem_cons.mp hp with heq | hmem
          · exfalso
            rw [heq] at hfind
            rw [hfind] at hf
            have hia : item = item0 := Option.some.inj hf
            rw [heq, hia] at hbad
            push_neg at hneg
            rcases hbad with h | h | h
            · omega
            · omega
            · exact hover h
          · exact ih ⟨p, hmem, item, hfind, hbad⟩

theorem buildLogs_mem_itemIds (entries : List (String × LogEntry))
    (inv : List InventoryItem)
    (hkeys : ∀ p ∈ entries, p.1 ∈ itemIds inv) :
    ∀ log ∈ buildLogs entries, log.itemId ∈ itemIds inv := by
  intro log hlog
  have hkey : log.itemId ∈ entries.map (·.1) := by
    rcases List.mem_append.mp hlog with h | h
    · exact mem_keys_of_filterMap _ recvLogs_itemId entries log h
    · exact mem_keys_of_filterMap _ usageLogs_itemId entries log h
  obtain ⟨p, hp, hpk⟩ := List.mem_map.mp hkey
  rw [← hpk]
  exact hkeys p hp

theorem buildLogs_length (entries : List (String × LogEntry)) :
    (buildLogs entries).length =
      entries.countP (fun p => 0 < p.2.received) +
        entries.countP (fun p => 0 < p.2.used) := by
  rw [buildLogs, List.length_append]
  have h1 : (recvLogs entries).length =
      entries.countP (fun p => 0 < p.2.received) := by
    rw [recvLogs, List.length_filterMap_eq_countP]
    refine List.countP_congr fun p _ => ?_
    by_cases hr : 0 < p.2.received <;> simp [hr]
  have h2 : (usageLogs entries).length =
      entries.countP (fun p => 0 < p.2.used) := by
    rw [usageLogs, List.length_filterMap_eq_countP]
    refine List.countP_congr fun p _ => ?_
    by_cases hr : 0 < p.2.used <;> simp [hr]
  rw [h1, h2]

/-- C8: the bulk daily log validates every entry before any mutation — a
single invalid entry refuses the whole batch outright (no transaction, no
inventory change) — and a fully valid batch appends exactly one `completed`
transaction per positive received amount and one per positive used amount. -/
theorem C8_bulk_log_two_phase :
    (∀ (user : User) (L : String) (ids : Nat → String) (k : Nat)
      (now : String) (entries : List (String × LogEntry)) (s : AppState),
      (∃ p ∈ entries, ∃ item,
        (getLoc s.inventory L).find? (fun i => i.id == p.1) = some item ∧
        (p.2.received < 0 ∨ p.2.used < 0 ∨
          item.quantity + p.2.received < p.2.used)) →
      submitAll user L ids k now entries s = none) ∧
    (∀ (user : User) (L : String) (ids : Nat → String) (k : Nat)
      (now : String) (entries : List (String × LogEntry)) (s s' : AppState),
      (∀ p ∈ entries, p.1 ∈ itemIds (getLoc s.inventory L)) →
      L ≠ "" → L ≠ "all" →
      submitAll user L ids k now entries s = some s' →
      (s'.transactions = (applyBulkLogs user.name now L ids k
        (buildLogs entries) (getLoc s.inventory L)).2 ++ s.transactions) ∧
      ((applyBulkLogs user.name now L ids k (buildLogs entries)
        (getLoc s.inventory L)).2.length =
        entries.countP (fun p => 0 < p.2.received) +
          entries.countP (fun p => 0 < p.2.used)) ∧
      (∀ tx ∈ (applyBulkLogs user.name now L ids k (buildLogs entries)
        (getLoc s.inventory L)).2, tx.status = .completed)) := by
  constructor
  · intro user L ids k now entries s hex
    unfold submitAll
    rw [validateEntries_eq_false_of_invalid (getLoc s.inventory L) entries hex]
    simp
  · intro user L ids k now entries s s' hkeys hL1 hL2 hsub
    obtain ⟨_, _, hs'⟩ := submitAll_some user L ids k now entries s s' hsub
    subst hs'
    refine ⟨?_, ?_, ?_⟩
    · rw [show handleBulkLog user (some L) ids k now (buildLogs entries) s =
        { inventory := setLoc s.inventory L (applyBulkLogs user.name now L ids
            k (buildLogs entries) (getLoc s.inventory L)).1,
          transactions := (applyBulkLogs user.name now L ids k
            (buildLogs entries) (getLoc s.inventory L)).2 ++ s.transactions }
        from by simp only [handleBulkLog]; rw [if_neg (not_or.mpr ⟨hL1, hL2⟩)]]
    · rw [applyBulkLogs_txs_length user.name now L ids (buildLogs entries) k
        (getLoc s.inventory L)
        (buildLogs_mem_itemIds entries (getLoc s.inventory L) hkeys)]
      exact buildLogs_length entries
    · intro tx htx
      exact applyBulkLogs_txs_completed user.name now L ids (buildLogs entries)
        k (getLoc s.inventory L) tx htx

theorem C8_bulk_log_two_phase_witness :
    ((itemOil.quantity + (0 : Int) < 1000) ∧
      submitAll userEmp "b1" sampleIds 0 "D1"
        [("itemOil", ⟨0, 1000, ""⟩)] sC2 = none) ∧
    ((applyBulkLogs userEmp.name "D1" "b1" sampleIds 0
      (buildLogs [("itemOil", ⟨1, 2, ""⟩)]) (getLoc sC2.inventory "b1")).2.length
      = 2) := by
  constructor
  · refine ⟨by decide, ?_⟩
    refine C8_bulk_log_two_phase.1 userEmp "b1" sampleIds 0 "D1"
      [("itemOil", ⟨0, 1000, ""⟩)] sC2
      ⟨("itemOil", ⟨0, 1000, ""⟩), by decide, itemOil, by decide, by decide⟩
  · have h := C8_bulk_log_two_phase.2 userEmp "b1" sampleIds 0 "D1"
      [("itemOil", ⟨1, 2, ""⟩)] sC2
      (handleBulkLog userEmp (some "b1") sampleIds 0 "D1"
        (buildLogs [("itemOil", ⟨1, 2, ""⟩)]) sC2)
      (by decide) (by decide) (by decide) rfl
    rw [h.2.1]
    decide

/-! ## Claim C9 -/

theorem notifyStep_alerts_mem (selLoc : Option String) (txs : List Transaction)
    (notified : List String) (x : String) :
    x ∈ (notifyStep selLoc txs notified).2 ↔
      ∃ t ∈ txs, t.id = x ∧ t.toLocation = selLoc ∧
        t.status = .pending_target ∧ x ∉ notified := by
  simp only [notifyStep, List.mem_map, List.mem_filter, Bool.and_eq_true,
    beq_iff_eq, Bool.not_eq_true']
  constructor
  · rintro ⟨t, ⟨ht, ⟨⟨hloc, hst⟩, hnc⟩⟩, hid⟩
    refine ⟨t, ht, hid, hloc, hst, ?_⟩
    intro hx
    rw [← hid] at hx
    simp at hnc
    exact hnc hx
  · rintro ⟨t, ht, hid, hloc, hst, hx⟩
    refine ⟨t, ⟨ht, ⟨⟨hloc, hst⟩, ?_⟩⟩, hid⟩
    simp
    rw [hid]
    exact hx

theorem notifyStep_alerts_nodup (selLoc : Option String)
    (txs : List Transaction) (notified : List String)
    (hnd : (txs.map (fun t => t.id)).Nodup) :
    (notifyStep selLoc txs notified).2.Nodup := by
  have hs : List.Sublist
      ((txs.filter (fun t =>
        t.toLocation == selLoc && t.status == .pending_target &&
        !(notified.contains t.id))).map (fun t => t.id))
      (txs.map (fun t => t.id)) :=
    (List.filter_sublist txs).map (fun t => t.id)
  exact hnd.sublist hs

theorem notifyStep_fst (selLoc : Option String) (txs : List Transaction)
    (notified : List String) :
    (notifyStep selLoc txs notified).1 =
      notified ++ (notifyStep selLoc txs notified).2 := rfl

theorem runNotify_count_zero (selLoc : Option String) (x : String)
    (refreshes : List (List Transaction)) :
    ∀ (notified : List String), x ∈ notified →
    (runNotify selLoc refreshes notified).2.count x = 0 := by
  induction refreshes with
  | nil => intro notified _; rfl
  | cons txs rest ih =>
    intro notified hx
    show ((notifyStep selLoc txs notified).2 ++
      (runNotify selLoc rest (notifyStep selLoc txs notified).1).2).count x = 0
    rw [List.count_append]
    have h1 : (notifyStep selLoc txs notified).2.count x = 0 := by
      rw [List.count_eq_zero]
      intro hm
      obtain ⟨t, _, _, _, _, hnx⟩ :=
        (notifyStep_alerts_mem selLoc txs notified x).mp hm
      exact hnx hx
    have h2 : (runNotify selLoc rest (notifyStep selLoc txs notified).1).2.count
        x = 0 := by
      refine ih (notifyStep selLoc txs notified).1 ?_
      rw [notifyStep_fst]
      exact List.mem_append_left _ hx
    rw [h1, h2]

theorem runNotify_count_exact (selLoc : Option String) (x : String)
    (refreshes : List (List Transaction)) :
    ∀ (notified : List String),
    (∀ txs ∈ refreshes, (txs.map (fun t => t.id)).Nodup) →
    x ∉ notified →
    (runNotify selLoc refreshes notified).2.count x =
      if refreshes.any (hitsIn selLoc x) then 1 else 0 := by
  induction refreshes with
  | nil => intro notified _ _; rfl
  | cons txs rest ih =>
    intro notified hnd hx
    show ((notifyStep selLoc txs notified).2 ++
      (runNotify selLoc rest (notifyStep selLoc txs notified).1).2).count x =
      if (txs :: rest).any (hitsIn selLoc x) then 1 else 0
    rw [List.count_append]
    by_cases hhit : hitsIn selLoc x txs = true
    · obtain ⟨t, ht, hcond⟩ := List.any_eq_true.mp hhit
      simp only [Bool.and_eq_true, beq_iff_eq] at hcond
      obtain ⟨⟨hid, hloc⟩, hst⟩ := hcond
      have hmem : x ∈ (notifyStep selLoc txs notified).2 :=
        (notifyStep_alerts_mem selLoc txs notified x).mpr
          ⟨t, ht, hid, hloc, hst, hx⟩
      have h1 : (notifyStep selLoc txs notified).2.count x = 1 :=
        List.count_eq_one_of_mem
          (notifyStep_alerts_nodup selLoc txs notified
            (hnd txs (List.mem_cons_self _ _))) hmem
      have h2 : (runNotify selLoc rest
          (notifyStep selLoc txs notified).1).2.count x = 0 := by
        refine runNotify_count_zero selLoc x rest
          (notifyStep selLoc txs notified).1 ?_
        rw [notifyStep_fst]
        exact List.mem_append_right _ hmem
      rw [h1, h2]
      have hany : (txs :: rest).any (hitsIn selLoc x) = true := by
        rw [List.any_cons, hhit, Bool.true_or]
      rw [if_pos hany]
    · have hhf : hitsIn selLoc x txs = false := by
        revert hhit; cases hitsIn selLoc x txs <;> simp
      have hnot : x ∉ (notifyStep selLoc txs notified).2 := by
        intro hm
        obtain ⟨t, ht, hid, hloc, hst, _⟩ :=
          (notifyStep_alerts_mem selLoc txs notified x).mp hm
        refine hhit (List.any_eq_true.mpr ⟨t, ht, ?_⟩)
        simp only [Bool.and_eq_true, beq_iff_eq]
        exact ⟨⟨hid, hloc⟩, hst⟩
      have h1 : (notifyStep selLoc txs notified).2.count x = 0 :=
        List.count_eq_zero.mpr hnot
      have hx1 : x ∉ (notifyStep selLoc txs notified).1 := by
        rw [notifyStep_fst]
        intro hm
        rcases List.mem_append.mp hm with h | h
        · exact hx h
        · exact hnot h
      have h2 := ih (notifyStep selLoc txs notified).1
        (fun u hu => hnd u (List.mem_cons_of_mem _ hu)) hx1
      rw [h1, h2, List.any_cons, hhf, Bool.false_or]
      omega

/-- C9: the notification emitter alerts at most once per transaction id —
across any session of log refreshes, a `pending_target` transaction addressed
to the viewer's location is alerted exactly once (the id enters the notified
set synchronously upon alerting), ids already in the set are never re-alerted,
and only logout clears the set. -/
theorem C9_notify_once :
    (∀ (selLoc : Option String) (x : String)
      (refreshes : List (List Transaction)) (notified : List String),
      (∀ txs ∈ refreshes, (txs.map (fun t => t.id)).Nodup) →
      x ∉ notified →
      (runNotify selLoc refreshes notified).2.count x =
        if refreshes.any (hitsIn selLoc x) then 1 else 0) ∧
    (∀ (selLoc : Option String) (x : String)
      (refreshes : List (List Transaction)) (notified : List String),
      x ∈ notified →
      (runNotify selLoc refreshes notified).2.count x = 0) ∧
    (∀ notified : List String, handleLogout notified = []) := by
  refine ⟨?_, ?_, fun _ => rfl⟩
  · intro selLoc x refreshes notified hnd hx
    exact runNotify_count_exact selLoc x refreshes notified hnd hx
  · intro selLoc x refreshes notified hx
    exact runNotify_count_zero selLoc x refreshes notified hx

theorem C9_notify_once_witness :
    ((∀ txs ∈ [[txIn], [txIn]], (txs.map (fun t => t.id)).Nodup) ∧
      "t5" ∉ ([] : List String) ∧
      (runNotify (some "warehouse") [[txIn], [txIn]] []).2.count "t5" = 1) ∧
    ("t5" ∈ ["t5"] ∧
      (runNotify (some "warehouse") [[txIn]] ["t5"]).2.count "t5" = 0) := by
  constructor
  · refine ⟨by decide, by decide, ?_⟩
    have h := C9_notify_once.1 (some "warehouse") "t5" [[txIn], [txIn]] []
      (by decide) (by decide)
    rw [h]
    decide
  · exact ⟨by decide,
      C9_notify_once.2.1 (some "warehouse") "t5" [[txIn]] ["t5"] (by decide)⟩

end Dawarinv
